import Mathlib

/-!
Shallow embedding of the content-presentation engine of the esp32-pixelcast
firmware (src/src/main.cpp), covering the notification queue, the app rotation
table, the LRU icon cache with its failure blacklist, the PNG decode policy and
the scroll animator.  Machine integers (`uint8_t`, `uint16_t`, `uint32_t`,
`unsigned long`) are modelled as `Nat`; `int8_t` indices that can be `-1` are
modelled as `Int`.  `millis()` timestamps are modelled as monotonically
increasing `Nat`s (the firmware's 32-bit wrap after 49 days is outside the
model; theorems that depend on elapsed-time subtraction carry `t0 ≤ now`
hypotheses so that `Nat` subtraction agrees with the unsigned subtraction in
the C source).  C arrays of fixed size are modelled as `List`s whose length is
constrained in the theorems; `for` loops with early `return`/`break` are
modelled as structural recursion over the list, one constructor per loop
iteration.
-/

namespace PixelCast

/-! ## Generic loop helpers

`firstIdxFrom p l i` models the ubiquitous C pattern
`for (i = ...; i < N; i++) if (p(a[i])) return i;` — it returns the index of
the first element of `l` satisfying `p`, where `i` is the index of the head of
`l` in the original array. -/

def firstIdxFrom (p : α → Bool) : List α → Nat → Option Nat
  | [], _ => none
  | a :: rest, i => if p a then some i else firstIdxFrom p rest (i + 1)

def firstIdx (p : α → Bool) (l : List α) : Option Nat :=
  firstIdxFrom p l 0

/-! ## Notification queue (main.cpp: `notifInit` .. `notifIsExpired`)

`MAX_NOTIFICATIONS = 10` (include/config.h). -/

structure NotificationItem where
  id : String
  text : String
  icon : String
  textColor : Nat
  backgroundColor : Nat
  duration : Nat
  hold : Bool
  urgent : Bool
  stack : Bool
  active : Bool
  displayedAt : Nat
  deriving Repr, DecidableEq

/-- The all-zero `NotificationItem` produced by `memset(notif, 0, ...)`. -/
def emptyNotification : NotificationItem :=
  { id := "", text := "", icon := "", textColor := 0, backgroundColor := 0,
    duration := 0, hold := false, urgent := false, stack := false,
    active := false, displayedAt := 0 }

structure NotifState where
  notifications : List NotificationItem
  notificationCount : Nat
  currentNotifIndex : Int
  deriving Repr, DecidableEq

/-- `notifInit()`: ten zeroed slots, empty queue, no current notification. -/
def notifInitState : NotifState :=
  { notifications := List.replicate 10 emptyNotification,
    notificationCount := 0, currentNotifIndex := -1 }

def notifSlot (s : NotifState) (i : Nat) : NotificationItem :=
  s.notifications.getD i emptyNotification

/-- `notifClearAll()` deactivates every slot and clears the current pointer. -/
def notifClearAll (s : NotifState) : NotifState :=
  { s with notifications := s.notifications.map (fun n => { n with active := false }),
           notificationCount := 0, currentNotifIndex := -1 }

/-- `notifAdd(...)`: replace-mode clears the queue first; then the first free
slot receives the new item (queue full ⇒ return -1); an urgent item grabs the
current pointer immediately.  `now` stands for `millis()` (used for the
generated id). -/
def notifAdd (s : NotifState) (id text icon : String)
    (textColor bgColor duration : Nat) (hold urgent stack : Bool)
    (now : Nat) : Int × NotifState :=
  let s := if !stack then notifClearAll s else s
  match firstIdx (fun n => !n.active) s.notifications with
  | none => (-1, s)
  | some freeSlot =>
    let nid := if id.length > 0 then id else "notif_" ++ toString now
    let notif : NotificationItem :=
      { id := nid, text := text, icon := icon, textColor := textColor,
        backgroundColor := bgColor, duration := duration, hold := hold,
        urgent := urgent, stack := stack, active := true, displayedAt := 0 }
    let s := { s with notifications := s.notifications.set freeSlot notif,
                      notificationCount := s.notificationCount + 1 }
    let s := if urgent then { s with currentNotifIndex := Int.ofNat freeSlot } else s
    (Int.ofNat freeSlot, s)

/-- `notifDismiss()`: deactivate the current notification, if any. -/
def notifDismiss (s : NotifState) : Bool × NotifState :=
  if s.currentNotifIndex < 0 ∨ ¬(notifSlot s s.currentNotifIndex.toNat).active then
    (false, s)
  else
    (true, { s with
      notifications := s.notifications.set s.currentNotifIndex.toNat
        { notifSlot s s.currentNotifIndex.toNat with active := false },
      notificationCount := s.notificationCount - 1,
      currentNotifIndex := -1 })

/-- `notifGetCurrent()`: the current slot index, when it holds an active item. -/
def notifGetCurrent (s : NotifState) : Option Nat :=
  if 0 ≤ s.currentNotifIndex ∧ (notifSlot s s.currentNotifIndex.toNat).active then
    some s.currentNotifIndex.toNat
  else none

/-- `notifGetNext()`: first pass selects the first active urgent slot not yet
displayed; the second pass selects the first active slot not yet displayed;
the selected slot becomes current. -/
def notifGetNext (s : NotifState) : Option Nat × NotifState :=
  if s.notificationCount = 0 then (none, s)
  else
    match firstIdx (fun n => n.active && n.urgent && n.displayedAt == 0)
        s.notifications with
    | some i => (some i, { s with currentNotifIndex := Int.ofNat i })
    | none =>
      match firstIdx (fun n => n.active && n.displayedAt == 0) s.notifications with
      | some i => (some i, { s with currentNotifIndex := Int.ofNat i })
      | none => (none, s)

/-- The state effect of `displayShowNotification(&notifications[i])`:
stamp `displayedAt` with `millis()` on the first render (the drawing itself
targets the external pixel sink and is not modelled). -/
def showNotification (s : NotifState) (i : Nat) (now : Nat) : NotifState :=
  let n := notifSlot s i
  if ¬n.active then s
  else if n.displayedAt = 0 then
    { s with notifications := s.notifications.set i { n with displayedAt := now } }
  else s

/-! ## App rotation table (main.cpp: `appAdd` .. `appGetNext`)

`MAX_APPS = 16` (include/config.h).  The per-segment colour payloads and the
zone sub-records carry no data any claim depends on beyond their reset, so the
model keeps the segment/zone *counts* (which `appAdd` zeroes) and omits the
payload arrays. -/

structure AppItem where
  id : String
  text : String
  icon : String
  label : String
  textColor : Nat
  duration : Nat
  lifetime : Nat
  createdAt : Nat
  priority : Int
  zoneCount : Nat
  active : Bool
  isSystem : Bool
  textSegmentCount : Nat
  labelSegmentCount : Nat
  deriving Repr, DecidableEq

def emptyApp : AppItem :=
  { id := "", text := "", icon := "", label := "", textColor := 0,
    duration := 0, lifetime := 0, createdAt := 0, priority := 0,
    zoneCount := 0, active := false, isSystem := false,
    textSegmentCount := 0, labelSegmentCount := 0 }

structure AppState where
  apps : List AppItem
  appCount : Nat
  currentAppIndex : Int
  deriving Repr, DecidableEq

/-- The table state after `memset(apps, 0, sizeof(apps)); appCount = 0;
currentAppIndex = -1;` in `appInit()`. -/
def appInitState : AppState :=
  { apps := List.replicate 16 emptyApp, appCount := 0, currentAppIndex := -1 }

def appSlot (s : AppState) (i : Nat) : AppItem :=
  s.apps.getD i emptyApp

/-- `appFind(id)`: index of the active item with the given id. -/
def appFind (s : AppState) (id : String) : Option Nat :=
  firstIdx (fun a => a.active && a.id == id) s.apps

/-- Arduino `constrain(priority, -10, 10)`. -/
def constrainPriority (p : Int) : Int :=
  if p < -10 then -10 else if p > 10 then 10 else p

/-- `appAdd(...)`: update in place when the id is active (raw field stores,
fresh `createdAt`); otherwise create in the first free slot, normalising
`duration` (0 ⇒ `settings.defaultDuration`) and clamping `priority`; return -1
when the table is full.  `icon = none` models a null `icon` pointer. -/
def appAdd (s : AppState) (id text : String) (icon : Option String)
    (textColor duration lifetime : Nat) (priority : Int) (isSystem : Bool)
    (defaultDuration now : Nat) : Int × AppState :=
  match appFind s id with
  | some existingIndex =>
    let old := appSlot s existingIndex
    let app : AppItem :=
      { old with
        text := text,
        icon := match icon with | some ic => ic | none => old.icon,
        label := "",
        textColor := textColor,
        textSegmentCount := 0,
        labelSegmentCount := 0,
        duration := duration,
        lifetime := lifetime,
        priority := priority,
        createdAt := now,
        active := true,
        zoneCount := 0 }
    (Int.ofNat existingIndex,
     { s with apps := s.apps.set existingIndex app })
  | none =>
    match firstIdx (fun a => !a.active) s.apps with
    | none => (-1, s)
    | some emptySlot =>
      let app : AppItem :=
        { id := id,
          text := text,
          icon := icon.getD "",
          label := "",
          textColor := textColor,
          textSegmentCount := 0,
          labelSegmentCount := 0,
          duration := if duration > 0 then duration else defaultDuration,
          lifetime := lifetime,
          createdAt := now,
          priority := constrainPriority priority,
          active := true,
          isSystem := isSystem,
          zoneCount := 0 }
      (Int.ofNat emptySlot,
       { s with apps := s.apps.set emptySlot app,
                appCount := s.appCount + 1 })

/-- `appRemove(id)`: refuse system items; otherwise deactivate the slot and
clear the rotation pointer when the removed item was current. -/
def appRemove (s : AppState) (id : String) : Bool × AppState :=
  match appFind s id with
  | none => (false, s)
  | some index =>
    let app := appSlot s index
    if app.isSystem then (false, s)
    else
      (true,
       { s with apps := s.apps.set index { app with active := false },
                appCount := s.appCount - 1,
                currentAppIndex :=
                  if s.currentAppIndex = Int.ofNat index then -1
                  else s.currentAppIndex })

/-- One iteration of the `appCleanExpired()` loop at slot `i`. -/
def cleanStep (now : Nat) (st : AppState) (i : Nat) : AppState :=
  let a := st.apps.getD i emptyApp
  if a.active = true ∧ a.lifetime > 0 ∧ now - a.createdAt > a.lifetime then
    { st with apps := st.apps.set i { a with active := false },
              appCount := st.appCount - 1,
              currentAppIndex :=
                if st.currentAppIndex = Int.ofNat i then -1
                else st.currentAppIndex }
  else st

/-- `appCleanExpired()`: deactivate every active item whose lifetime has
elapsed; clear the rotation pointer when it was current. -/
def appCleanExpired (s : AppState) (now : Nat) : AppState :=
  (List.range 16).foldl (cleanStep now) s

/-- The slot scan of `appGetNext()`: `idx = (startIndex + i) % MAX_APPS` for
`i = 0, 1, ...`, returning the first active slot; `fuel` counts the remaining
loop iterations (16 in total). -/
def scanIter (active : Nat → Bool) (start : Nat) : Nat → Nat → Option Nat
  | _, 0 => none
  | i, fuel + 1 =>
    if active ((start + i) % 16) then some ((start + i) % 16)
    else scanIter active start (i + 1) fuel

/-- `appGetNext()`: early-out on an empty table, expiry sweep, then the
round-robin scan from `(currentAppIndex + 1) % MAX_APPS`; the first active
slot found becomes current. -/
def appGetNext (s : AppState) (now : Nat) : Option Nat × AppState :=
  if s.appCount = 0 then (none, s)
  else
    let s := appCleanExpired s now
    if s.appCount = 0 then (none, s)
    else
      let start := ((s.currentAppIndex + 1) % 16).toNat
      match scanIter (fun idx => (s.apps.getD idx emptyApp).active) start 0 16 with
      | some idx => (some idx, { s with currentAppIndex := Int.ofNat idx })
      | none => (none, s)

/-- Iterated rotation harness: the sequence of slot indices made current by
`n` successive `appGetNext()` calls. -/
def appVisits (s : AppState) (now : Nat) : Nat → List Nat
  | 0 => []
  | n + 1 =>
    match appGetNext s now with
    | (some t, s') => t :: appVisits s' now n
    | (none, _) => []

/-- Number of active entries among the 16 table slots. -/
def activeCount (s : AppState) : Nat :=
  ((List.range 16).filter (fun i => (s.apps.getD i emptyApp).active)).length

/-- Operations driving the content table, for the table-wide invariant. -/
inductive AppOp where
  | add (id text : String) (icon : Option String)
        (textColor duration lifetime : Nat) (priority : Int) (isSystem : Bool)
        (defaultDuration now : Nat)
  | remove (id : String)
  | clean (now : Nat)

def applyAppOp (s : AppState) : AppOp → AppState
  | .add id text icon textColor duration lifetime priority isSystem dd now =>
    (appAdd s id text icon textColor duration lifetime priority isSystem dd now).2
  | .remove id => (appRemove s id).2
  | .clean now => appCleanExpired s now

def runAppOps (s : AppState) (ops : List AppOp) : AppState :=
  ops.foldl applyAppOp s

/-! ## Scroll animator (main.cpp: `loopDisplay`, `resetScrollState`)

`SCROLL_SPEED = 50`, `SCROLL_PAUSE = 2000` (include/config.h); the scroll
margin constant in the offset bound is 10. -/

structure ScrollState where
  scrollOffset : Int
  lastScrollTime : Nat
  scrollPhase : Nat
  needsScroll : Bool
  textWidth : Int
  availableWidth : Int
  deriving Repr, DecidableEq

/-- One execution of the scroll `switch` in `loopDisplay()` (entered when the
surface needs scrolling and the 50 ms `SCROLL_SPEED` gate has elapsed;
`now` is `millis()`).  Phase 0 = pause_start, 1 = scrolling, 2 = pause_end;
the `switch` has no default case, so any other phase value is left alone. -/
def scrollStep (st : ScrollState) (now : Nat) : ScrollState :=
  if st.needsScroll then
    if st.scrollPhase = 0 then
      if now - st.lastScrollTime ≥ 2000 then
        { st with scrollPhase := 1, lastScrollTime := now }
      else st
    else if st.scrollPhase = 1 then
      if st.scrollOffset + 1 ≥ st.textWidth - st.availableWidth + 10 then
        { st with scrollOffset := st.scrollOffset + 1, scrollPhase := 2,
                  lastScrollTime := now }
      else { st with scrollOffset := st.scrollOffset + 1 }
    else if st.scrollPhase = 2 then
      if now - st.lastScrollTime ≥ 2000 then
        { st with scrollOffset := 0, scrollPhase := 0, lastScrollTime := now }
      else st
    else st
  else st

/-! ## Icon cache (main.cpp: `initIconCache` .. `drawIcon`)

`MAX_ICON_CACHE = 8` (include/config.h), `MAX_FAILED_ICON_DOWNLOADS = 8`,
`FAILED_ICON_RETRY_DELAY = 300000` ms (main.cpp).  The pixel buffer owned by a
slot (`uint16_t*`, RGB565) is a `List Nat`; `none` models a null pointer.
`UINT32_MAX` / `ULONG_MAX` on the 32-bit target are `4294967295`. -/

structure CachedIcon where
  name : String
  pixels : Option (List Nat)
  width : Nat
  height : Nat
  valid : Bool
  lastUsed : Nat
  deriving Repr, DecidableEq

def emptyCachedIcon : CachedIcon :=
  { name := "", pixels := none, width := 0, height := 0, valid := false,
    lastUsed := 0 }

/-- The single loop of `findLRUSlot()`: an invalid slot returns immediately
(`Sum.inl`); otherwise the first index with the strictly smallest `lastUsed`
is accumulated and returned after the loop (`Sum.inr`).  One constructor per
iteration; `i` is the index of the list head in the cache array. -/
def lruLoop : List CachedIcon → Nat → Int → Nat → Sum Nat Int
  | [], _, lruIndex, _ => Sum.inr lruIndex
  | c :: rest, i, lruIndex, oldestTime =>
    if ¬c.valid then Sum.inl i
    else if c.lastUsed < oldestTime then
      lruLoop rest (i + 1) (Int.ofNat i) c.lastUsed
    else lruLoop rest (i + 1) lruIndex oldestTime

/-- `findLRUSlot()`: first invalid slot if any (no mutation); otherwise the
LRU slot is freed (`free(pixels)`, `valid = false`) and returned. -/
def findLRUSlot (cache : List CachedIcon) : Int × List CachedIcon :=
  match lruLoop cache 0 (-1) 4294967295 with
  | Sum.inl i => (Int.ofNat i, cache)
  | Sum.inr lruIndex =>
    if 0 ≤ lruIndex then
      let j := lruIndex.toNat
      let c := cache.getD j emptyCachedIcon
      if c.pixels ≠ none then
        (lruIndex, cache.set j { c with pixels := none, valid := false })
      else (lruIndex, cache)
    else (lruIndex, cache)

/-- A source image as seen by the PNG decoder: dimensions plus an RGBA pixel
function (`pix x y = (r, g, b, a)`). -/
structure SourceImage where
  width : Nat
  height : Nat
  pix : Nat → Nat → Nat × Nat × Nat × Nat

/-- RGB888 → RGB565 conversion in `pngDrawCallback`:
`((r & 0xF8) << 8) | ((g & 0xFC) << 3) | (b >> 3)`. -/
def rgb565 (r g b : Nat) : Nat :=
  ((r &&& 0xF8) <<< 8) ||| ((g &&& 0xFC) <<< 3) ||| (b >>> 3)

/-- The stored value of one source pixel: alpha below 128 becomes the
transparency sentinel 0, otherwise RGB565. -/
def pngPixel565 (p : Nat × Nat × Nat × Nat) : Nat :=
  match p with
  | (r, g, b, a) => if a < 128 then 0 else rgb565 r g b

/-- The pixel buffer written by `loadIcon`'s decode of `img` into a `w × h`
buffer (row-major, stride `w = pngDecodeWidth`): the buffer is zeroed by
`memset`, then `pngDrawCallback` writes row `y` only when `y < 16` (its first
line is `if (!pngDecodeTarget || pDraw->y >= 16) return 1;`), for source rows
`y < img.height` and columns `x < min img.width w`. -/
def pngDecodeBuffer (img : SourceImage) (w h : Nat) : List Nat :=
  (List.range (w * h)).map (fun idx =>
    let y := idx / w
    let x := idx % w
    if y < 16 ∧ y < img.height ∧ x < img.width then pngPixel565 (img.pix x y)
    else 0)

/-- `loadIcon(name)`: look the file up (the filesystem, PNG open and the
allocations are collapsed into the oracle `fs : String → Option SourceImage`,
`none` covering a missing file, open failure or allocation failure), take a
cache slot via `findLRUSlot`, clamp the dimensions to 32×32, decode, and fill
the slot.  Returns the slot index on success. -/
def loadIcon (cache : List CachedIcon) (fs : String → Option SourceImage)
    (name : String) (now : Nat) : Option Nat × List CachedIcon :=
  if name = "" then (none, cache)
  else
    match fs name with
    | none => (none, cache)
    | some img =>
      match findLRUSlot cache with
      | (slot, cache) =>
        if slot < 0 then (none, cache)
        else
          let j := slot.toNat
          let w := min img.width 32
          let h := min img.height 32
          let entry : CachedIcon :=
            { name := name, pixels := some (pngDecodeBuffer img w h),
              width := w, height := h, valid := true, lastUsed := now }
          (some j, cache.set j entry)

structure FailedIconDownload where
  name : String
  failedAt : Nat
  deriving Repr, DecidableEq

/-- The all-zero ring entry produced by the zero-initialised global array. -/
def emptyFailedIconDownload : FailedIconDownload :=
  { name := "", failedAt := 0 }

/-- `isFailedIconDownload(name)`: some ring entry matches the name and is
still inside the 5-minute retry window. -/
def isFailedIconDownload (failed : List FailedIconDownload) (name : String)
    (now : Nat) : Bool :=
  failed.any (fun f => f.name ≠ "" && f.name == name && now - f.failedAt < 300000)

/-- The eviction scan of `addFailedIconDownload`: first empty-name entry wins
immediately (`break`), otherwise the first index with the strictly smallest
`failedAt` is kept. -/
def failedScanLoop : List FailedIconDownload → Nat → Nat → Nat → Nat
  | [], _, oldestIndex, _ => oldestIndex
  | f :: rest, i, oldestIndex, oldestTime =>
    if f.name = "" then i
    else if f.failedAt < oldestTime then failedScanLoop rest (i + 1) i f.failedAt
    else failedScanLoop rest (i + 1) oldestIndex oldestTime

/-- `addFailedIconDownload(name)`: overwrite the selected ring entry with the
name and the current time. -/
def addFailedIconDownload (failed : List FailedIconDownload) (name : String)
    (now : Nat) : List FailedIconDownload :=
  let oldestIndex := failedScanLoop failed 0 0 4294967295
  failed.set oldestIndex { name := name, failedAt := now }

/-- The `lm_<digits>` naming-convention test in `getIcon` (prefix `"lm_"`
followed by a nonempty run of decimal digits). -/
def isLmNumeric (name : String) : Bool :=
  match name.toList with
  | 'l' :: 'm' :: '_' :: rest =>
    rest ≠ [] && rest.all (fun c => '0' ≤ c && c ≤ '9')
  | _ => false

structure GetIconResult where
  hit : Option Nat
  cache : List CachedIcon
  failed : List FailedIconDownload
  downloadAttempted : Bool
  deriving Repr

/-- `getIcon(name)`: cache search (refreshing `lastUsed` on a hit), then
`loadIcon`, then — for `lm_<digits>` names that are not blacklisted — the
remote download (`download : String → Option SourceImage` is the HTTP
collaborator: `none` = fetch failure, `some img` = the file it wrote) followed
by a decode retry; a failed download is recorded in the blacklist.
`downloadAttempted` records whether the network was touched. -/
def getIcon (cache : List CachedIcon) (failed : List FailedIconDownload)
    (fs : String → Option SourceImage) (download : String → Option SourceImage)
    (name : String) (now : Nat) : GetIconResult :=
  if name = "" then ⟨none, cache, failed, false⟩
  else
    match firstIdx (fun c => c.valid && c.name == name) cache with
    | some i =>
      ⟨some i,
       cache.set i { cache.getD i emptyCachedIcon with lastUsed := now },
       failed, false⟩
    | none =>
      match loadIcon cache fs name now with
      | (some j, cache') => ⟨some j, cache', failed, false⟩
      | (none, cache') =>
        if isLmNumeric name && !isFailedIconDownload failed name now then
          match download name with
          | some img2 =>
            match loadIcon cache'
                (fun n => if n = name then some img2 else fs n) name now with
            | (r, cache'') => ⟨r, cache'', failed, true⟩
          | none => ⟨none, cache', addFailedIconDownload failed name now, true⟩
        else ⟨none, cache', failed, false⟩

/-- `drawIcon(icon, x, y)`: the list of `(x, y, color)` pixel-sink writes.
The entry guard mirrors `if (!icon || !icon->valid || !icon->pixels) return;`
(a null `icon` pointer is outside the model); icons at most 8×8 are drawn 2×
upscaled (`scale = 2` exactly when `width ≤ 8 && height ≤ 8`); pixel value 0
is skipped. -/
def drawIcon (icon : CachedIcon) (x y : Int) : List (Int × Int × Nat) :=
  if ¬icon.valid ∨ icon.pixels = none then []
  else
    (List.range icon.height).flatMap (fun py =>
      (List.range icon.width).flatMap (fun px =>
        if (icon.pixels.getD []).getD (py * icon.width + px) 0 ≠ 0 then
          if icon.width ≤ 8 ∧ icon.height ≤ 8 then
            [(x + Int.ofNat (px * 2), y + Int.ofNat (py * 2),
              (icon.pixels.getD []).getD (py * icon.width + px) 0),
             (x + Int.ofNat (px * 2) + 1, y + Int.ofNat (py * 2),
              (icon.pixels.getD []).getD (py * icon.width + px) 0),
             (x + Int.ofNat (px * 2), y + Int.ofNat (py * 2) + 1,
              (icon.pixels.getD []).getD (py * icon.width + px) 0),
             (x + Int.ofNat (px * 2) + 1, y + Int.ofNat (py * 2) + 1,
              (icon.pixels.getD []).getD (py * icon.width + px) 0)]
          else
            [(x + Int.ofNat px, y + Int.ofNat py,
              (icon.pixels.getD []).getD (py * icon.width + px) 0)]
        else []))

/-! ## Concrete states used by the witnesses and the C1 counterexample -/

/-- Concrete scroll state for the C8 witness: scrolling phase, offset 3,
text 50 px wide in a 28 px window. -/
def c8ScrollSt : ScrollState := ⟨3, 0, 1, true, 50, 28⟩

/-- One-slot table holding an active item "a", for the C10 witness. -/
def c10UpdState : AppState :=
  { apps := [{ emptyApp with id := "a", active := true }],
    appCount := 1, currentAppIndex := -1 }

/-- One-slot empty table, for the C10 witness. -/
def c10NewState : AppState :=
  { apps := [emptyApp], appCount := 0, currentAppIndex := -1 }

/-- One-slot table whose only slot is an active item "zz", for the C3
table-full witness. -/
def c3FullState : AppState :=
  { apps := [{ emptyApp with id := "zz", active := true }],
    appCount := 1, currentAppIndex := -1 }

/-- Queue state for the C9 witness: slot 0 holds the currently displayed
notification "A" (stamped at 15), all other slots free. -/
def c9State : NotifState :=
  { notifications :=
      { emptyNotification with id := "A", active := true, displayedAt := 15 }
        :: List.replicate 9 emptyNotification,
    notificationCount := 1, currentNotifIndex := 0 }

/-! C1 run: six successive queue states.  "A" is added at t=10 (slot 0),
selected and first rendered at t=15; "B" is added at t=20 and lands in slot 1;
"A" is dismissed, freeing slot 0; "C" is added at t=40 — *after* "B" — and
reuses slot 0. -/

def c1S1 : NotifState :=
  (notifAdd notifInitState "A" "alpha" "" 0 0 5000 false false true 10).2

def c1S2 : NotifState := (notifGetNext c1S1).2

def c1S3 : NotifState := showNotification c1S2 0 15

def c1S4 : NotifState :=
  (notifAdd c1S3 "B" "beta" "" 0 0 5000 false false true 20).2

def c1S5 : NotifState := (notifDismiss c1S4).2

def c1S6 : NotifState :=
  (notifAdd c1S5 "C" "gamma" "" 0 0 5000 false false true 40).2

/-- Queue state for the C1 witness: slot 0 holds an undisplayed non-urgent
notification, slot 1 an undisplayed urgent one, slots 2–9 free. -/
def c1WState : NotifState :=
  { notifications :=
      { emptyNotification with id := "plain", active := true }
        :: { emptyNotification with id := "rush", active := true, urgent := true }
        :: List.replicate 8 emptyNotification,
    notificationCount := 2, currentNotifIndex := -1 }

/-- Full concrete 8-slot cache for the C5 witness; the strictly-oldest entry
sits in slot 3 (`lastUsed = 2`). -/
def c5Cache : List CachedIcon :=
  [{ name := "a", pixels := some [1], width := 1, height := 1, valid := true,
     lastUsed := 10 },
   { name := "b", pixels := some [1], width := 1, height := 1, valid := true,
     lastUsed := 20 },
   { name := "c", pixels := some [1], width := 1, height := 1, valid := true,
     lastUsed := 30 },
   { name := "d", pixels := some [1], width := 1, height := 1, valid := true,
     lastUsed := 2 },
   { name := "e", pixels := some [1], width := 1, height := 1, valid := true,
     lastUsed := 40 },
   { name := "f", pixels := some [1], width := 1, height := 1, valid := true,
     lastUsed := 50 },
   { name := "g", pixels := some [1], width := 1, height := 1, valid := true,
     lastUsed := 60 },
   { name := "h", pixels := some [1], width := 1, height := 1, valid := true,
     lastUsed := 70 }]

/-- Zeroed 8-entry failure ring for the C6 witness. -/
def c6Ring : List FailedIconDownload :=
  List.replicate 8 emptyFailedIconDownload

/-- Source image for the C7 counterexample: 1 pixel wide, 17 rows tall, every
pixel opaque white. -/
def c7Image : SourceImage := ⟨1, 17, fun _ _ => (255, 255, 255, 255)⟩

def c7Fs : String → Option SourceImage :=
  fun n => if n = "big" then some c7Image else none

def c7Cache : List CachedIcon := List.replicate 8 emptyCachedIcon

def c7Run : Option Nat × List CachedIcon := loadIcon c7Cache c7Fs "big" 5

/-- Source image for the C7 witness: 2×2 opaque blue. -/
def c7WImage : SourceImage := ⟨2, 2, fun _ _ => (0, 0, 255, 255)⟩

def c7WFs : String → Option SourceImage :=
  fun n => if n = "sq" then some c7WImage else none

/-- Active identifiers are pairwise distinct across the table slots. -/
def idsDistinct (s : AppState) : Prop :=
  ∀ i j, i < j → j < s.apps.length →
    (appSlot s i).active = true → (appSlot s j).active = true →
    (appSlot s i).id ≠ (appSlot s j).id

/-- `s'` differs from `s` only by deactivating slots (ids untouched). -/
def Weakens (s s' : AppState) : Prop :=
  s'.apps.length = s.apps.length ∧
  ∀ m, (appSlot s' m).id = (appSlot s m).id ∧
    ((appSlot s' m).active = true → (appSlot s m).active = true)

/-- Concrete 16-slot table for the C2 witness: active items in the
non-contiguous slots 2, 5 and 9, lifetime 0 (permanent), no current app. -/
def c2State : AppState :=
  { apps := (((List.replicate 16 emptyApp).set 2
      { emptyApp with id := "x2", active := true }).set 5
      { emptyApp with id := "x5", active := true }).set 9
      { emptyApp with id := "x9", active := true },
    appCount := 3, currentAppIndex := -1 }

/-! ## Theorems -/

theorem firstIdxFrom_eq_some {p : α → Bool} :
    ∀ (l : List α) (i j : Nat), firstIdxFrom p l i = some j →
      i ≤ j ∧ j < i + l.length ∧ p (l.getD (j - i) d) = true ∧
        ∀ k, k < j - i → p (l.getD k d) = false
  | [], _, _, h => by simp [firstIdxFrom] at h
  | a :: rest, i, j, h => by
    by_cases hp : p a = true
    · simp [firstIdxFrom, hp] at h
      subst h
      refine ⟨Nat.le_refl _, by simp, ?_, ?_⟩
      · simpa using hp
      · intro k hk; omega
    · have hp' : p a = false := by simpa using hp
      simp [firstIdxFrom, hp'] at h
      obtain ⟨h1, h2, h3, h4⟩ := firstIdxFrom_eq_some rest (i + 1) j h
      refine ⟨by omega, by simp; omega, ?_, ?_⟩
      · have : j - i = (j - (i + 1)) + 1 := by omega
        rw [this]; simpa using h3
      · intro k hk
        match k with
        | 0 => simpa using hp'
        | k' + 1 =>
          have := h4 k' (by omega)
          simpa using this

theorem firstIdxFrom_eq_none {p : α → Bool} :
    ∀ (l : List α) (i : Nat), firstIdxFrom p l i = none →
      ∀ k, k < l.length → p (l.getD k d) = false
  | [], _, _, k, hk => by simp at hk
  | a :: rest, i, h, k, hk => by
    by_cases hp : p a = true
    · simp [firstIdxFrom, hp] at h
    · have hp' : p a = false := by simpa using hp
      simp [firstIdxFrom, hp'] at h
      match k with
      | 0 => simpa using hp'
      | k' + 1 =>
        have := firstIdxFrom_eq_none (d := d) rest (i + 1) h k' (by simpa using hk)
        simpa using this

theorem firstIdxFrom_isSome {p : α → Bool} :
    ∀ (l : List α) (i : Nat), (∃ k, k < l.length ∧ p (l.getD k d) = true) →
      ∃ j, firstIdxFrom p l i = some j
  | [], _, h => by
    obtain ⟨k, hk, _⟩ := h
    simp at hk
  | a :: rest, i, h => by
    by_cases hp : p a = true
    · exact ⟨i, by simp [firstIdxFrom, hp]⟩
    · have hp' : p a = false := by simpa using hp
      obtain ⟨k, hk, hpk⟩ := h
      match k with
      | 0 => simp at hpk; rw [hp'] at hpk; exact absurd hpk (by simp)
      | k' + 1 =>
        obtain ⟨j, hj⟩ := firstIdxFrom_isSome (p := p) rest (i + 1)
          ⟨k', by simpa using hk, by simpa using hpk⟩
        exact ⟨j, by simp [firstIdxFrom, hp', hj]⟩

theorem firstIdx_eq_some {p : α → Bool} {l : List α} {j : Nat}
    (h : firstIdx p l = some j) :
    j < l.length ∧ p (l.getD j d) = true ∧ ∀ k, k < j → p (l.getD k d) = false := by
  have := firstIdxFrom_eq_some (d := d) l 0 j h
  simpa using this

theorem firstIdx_eq_none {p : α → Bool} {l : List α} (h : firstIdx p l = none) :
    ∀ k, k < l.length → p (l.getD k d) = false :=
  firstIdxFrom_eq_none l 0 h

theorem firstIdx_isSome {p : α → Bool} {l : List α}
    (h : ∃ k, k < l.length ∧ p (l.getD k d) = true) :
    ∃ j, firstIdx p l = some j :=
  firstIdxFrom_isSome l 0 h

/-- `getD` after `set`: the single array-update fact all slot-table proofs use. -/
theorem getD_set (l : List α) (i j : Nat) (v d : α) :
    (l.set i v).getD j d = if i = j ∧ j < l.length then v else l.getD j d := by
  induction l generalizing i j with
  | nil => simp
  | cons a rest ih =>
    match i, j with
    | 0, 0 => simp
    | 0, j' + 1 => simp
    | i' + 1, 0 => simp
    | i' + 1, j' + 1 =>
      simp only [List.set_cons_succ, List.getD_cons_succ, ih i' j', List.length_cons]
      by_cases h : i' = j' ∧ j' < rest.length
      · rw [if_pos h, if_pos (by omega)]
      · rw [if_neg h, if_neg (by omega)]

theorem getD_mem {l : List α} {i : Nat} (h : i < l.length) (d : α) :
    l.getD i d ∈ l := by
  induction l generalizing i with
  | nil => simp at h
  | cons a rest ih =>
    match i with
    | 0 => simp
    | i' + 1 =>
      have h' : i' < rest.length := by simpa using h
      simp only [List.getD_cons_succ]
      exact List.mem_cons_of_mem _ (ih h')

/-- Phase-0 (pause_start) step of the scroll animator. -/
theorem scrollStep_phase0 (st : ScrollState) (now : Nat)
    (hns : st.needsScroll = true) (hph : st.scrollPhase = 0) :
    scrollStep st now =
      if now - st.lastScrollTime ≥ 2000 then
        { st with scrollPhase := 1, lastScrollTime := now }
      else st := by
  simp [scrollStep, hns, hph]

/-- Phase-1 (scrolling) step of the scroll animator. -/
theorem scrollStep_phase1 (st : ScrollState) (now : Nat)
    (hns : st.needsScroll = true) (hph : st.scrollPhase = 1) :
    scrollStep st now =
      if st.scrollOffset + 1 ≥ st.textWidth - st.availableWidth + 10 then
        { st with scrollOffset := st.scrollOffset + 1, scrollPhase := 2,
                  lastScrollTime := now }
      else { st with scrollOffset := st.scrollOffset + 1 } := by
  simp [scrollStep, hns, hph]

/-- Phase-2 (pause_end) step of the scroll animator. -/
theorem scrollStep_phase2 (st : ScrollState) (now : Nat)
    (hns : st.needsScroll = true) (hph : st.scrollPhase = 2) :
    scrollStep st now =
      if now - st.lastScrollTime ≥ 2000 then
        { st with scrollOffset := 0, scrollPhase := 0, lastScrollTime := now }
      else st := by
  simp [scrollStep, hns, hph]

/-- A phase value outside 0–2 is left untouched (no `default` case). -/
theorem scrollStep_other (st : ScrollState) (now : Nat)
    (hph : st.scrollPhase ≠ 0 ∧ st.scrollPhase ≠ 1 ∧ st.scrollPhase ≠ 2) :
    scrollStep st now = st := by
  simp [scrollStep, hph.1, hph.2.1, hph.2.2]

/-- C8: while a surface needs scrolling, the `Scrolling` phase advances the
offset by exactly one pixel per scroll step and keeps scrolling until the
offset reaches `textWidth - availableWidth + 10`, at which point the phase
becomes pause-end with the offset intact; the offset returns to 0 only through
the pause-end timeout, which also resets the phase to pause-start — never by a
jump mid-scroll. -/
theorem C8_scroll_progression (st : ScrollState) (now : Nat)
    (hns : st.needsScroll = true) :
    (st.scrollPhase = 1 → (scrollStep st now).scrollOffset = st.scrollOffset + 1) ∧
    (st.scrollPhase = 1 →
      st.scrollOffset + 1 < st.textWidth - st.availableWidth + 10 →
      (scrollStep st now).scrollPhase = 1) ∧
    (st.scrollPhase = 1 →
      st.scrollOffset + 1 ≥ st.textWidth - st.availableWidth + 10 →
      (scrollStep st now).scrollPhase = 2 ∧
        (scrollStep st now).scrollOffset = st.scrollOffset + 1) ∧
    (st.scrollPhase = 2 → now - st.lastScrollTime ≥ 2000 →
      (scrollStep st now).scrollOffset = 0 ∧ (scrollStep st now).scrollPhase = 0) ∧
    (st.scrollOffset ≥ 0 → (scrollStep st now).scrollOffset = 0 →
      st.scrollOffset ≠ 0 →
      st.scrollPhase = 2 ∧ now - st.lastScrollTime ≥ 2000 ∧
        (scrollStep st now).scrollPhase = 0) := by
  refine ⟨?_, ?_, ?_, ?_, ?_⟩
  · intro h1
    rw [scrollStep_phase1 st now hns h1]
    split <;> rfl
  · intro h1 h2
    rw [scrollStep_phase1 st now hns h1, if_neg (by omega)]
    exact h1
  · intro h1 h2
    rw [scrollStep_phase1 st now hns h1, if_pos h2]
    exact ⟨rfl, rfl⟩
  · intro h2 helapsed
    rw [scrollStep_phase2 st now hns h2, if_pos helapsed]
    exact ⟨rfl, rfl⟩
  · intro hnn hzero hne
    by_cases h0 : st.scrollPhase = 0
    · rw [scrollStep_phase0 st now hns h0] at hzero
      split at hzero <;> exact absurd hzero hne
    · by_cases h1 : st.scrollPhase = 1
      · rw [scrollStep_phase1 st now hns h1] at hzero
        split at hzero <;> simp at hzero <;> omega
      · by_cases h2 : st.scrollPhase = 2
        · rw [scrollStep_phase2 st now hns h2] at hzero ⊢
          split at hzero
          · next helapsed =>
            rw [if_pos helapsed]
            exact ⟨h2, helapsed, rfl⟩
          · exact absurd hzero hne
        · rw [scrollStep_other st now ⟨h0, h1, h2⟩] at hzero
          exact absurd hzero hne

/-- C8 witness: the concrete scrolling step advances the offset to 4 and
stays in the scrolling phase (4 < 50 - 28 + 10). -/
theorem C8_scroll_progression_witness :
    (scrollStep c8ScrollSt 100).scrollOffset = 3 + 1 ∧
    (scrollStep c8ScrollSt 100).scrollPhase = 1 :=
  ⟨(C8_scroll_progression c8ScrollSt 100 rfl).1 rfl,
   (C8_scroll_progression c8ScrollSt 100 rfl).2.1 rfl (by decide)⟩

/-- C10: `appAdd` normalizes only on the create path — a new item gets the
default duration when 0 is passed and a priority clamped into [-10, 10] —
while the update path stores the passed duration (including 0) and priority
verbatim. -/
theorem C10_create_only_normalization (s : AppState) (id text : String)
    (icon : Option String) (textColor duration lifetime : Nat) (priority : Int)
    (isSystem : Bool) (defaultDuration now : Nat) :
    (∀ i, appFind s id = some i →
      (appSlot (appAdd s id text icon textColor duration lifetime priority
          isSystem defaultDuration now).2 i).duration = duration ∧
      (appSlot (appAdd s id text icon textColor duration lifetime priority
          isSystem defaultDuration now).2 i).priority = priority) ∧
    (appFind s id = none → ∀ k, firstIdx (fun a => !a.active) s.apps = some k →
      let a := appSlot (appAdd s id text icon textColor duration lifetime priority
          isSystem defaultDuration now).2 k
      (duration ≠ 0 → a.duration = duration) ∧
      (duration = 0 → a.duration = defaultDuration) ∧
      (-10 ≤ a.priority ∧ a.priority ≤ 10) ∧
      (-10 ≤ priority → priority ≤ 10 → a.priority = priority) ∧
      (priority < -10 → a.priority = -10) ∧
      (priority > 10 → a.priority = 10)) := by
  constructor
  · intro i hfind
    have hi := (firstIdx_eq_some (d := emptyApp) hfind).1
    simp only [appAdd, hfind, appSlot, getD_set]
    rw [if_pos ⟨by trivial, hi⟩]
    exact ⟨rfl, rfl⟩
  · intro hfind k hfree
    have hk := (firstIdx_eq_some (d := emptyApp) hfree).1
    simp only [appAdd, hfind, hfree, appSlot, getD_set]
    rw [if_pos ⟨by trivial, hk⟩]
    refine ⟨?_, ?_, ?_, ?_, ?_, ?_⟩
    · intro h; simp only; rw [if_pos (by omega)]
    · intro h; simp only; rw [if_neg (by omega)]
    · simp only [constrainPriority]; split
      · omega
      · split <;> omega
    · intro h1 h2; simp only [constrainPriority]
      rw [if_neg (by omega), if_neg (by omega)]
    · intro h; simp only [constrainPriority]; rw [if_pos h]
    · intro h; simp only [constrainPriority]
      rw [if_neg (by omega), if_pos h]

/-- C10 witness: updating the existing item keeps duration 0 and priority 99
verbatim; creating a fresh item replaces duration 0 by the default 7000 and
clamps priority 99 to 10. -/
theorem C10_create_only_normalization_witness :
    ((appSlot (appAdd c10UpdState "a" "t" none 0 0 0 99 false 7000 5).2
        0).duration = 0 ∧
      (appSlot (appAdd c10UpdState "a" "t" none 0 0 0 99 false 7000 5).2
        0).priority = 99) ∧
    ((appSlot (appAdd c10NewState "b" "t" none 0 0 0 99 false 7000 5).2
        0).duration = 7000 ∧
      (appSlot (appAdd c10NewState "b" "t" none 0 0 0 99 false 7000 5).2
        0).priority = 10) := by
  refine ⟨(C10_create_only_normalization c10UpdState "a" "t" none 0 0 0 99
    false 7000 5).1 0 (by decide), ?_⟩
  have h := (C10_create_only_normalization c10NewState "b" "t" none
    0 0 0 99 false 7000 5).2 (by decide) 0 (by decide)
  exact ⟨h.2.1 rfl, h.2.2.2.2.2 (by decide)⟩

/-- C3: `appAdd` with an already-active id overwrites the mutable fields of
that slot in place (fresh creation timestamp, same id, no new slot — the
active count is unchanged and no other slot is touched); with a fresh id it
allocates the first free slot; and when every slot is active it fails with -1
leaving the table unchanged. -/
theorem C3_addOrUpdate (s : AppState) (id text : String) (icon : Option String)
    (textColor duration lifetime : Nat) (priority : Int) (isSystem : Bool)
    (defaultDuration now : Nat) :
    (∀ i, appFind s id = some i →
      (appAdd s id text icon textColor duration lifetime priority isSystem
          defaultDuration now).1 = Int.ofNat i ∧
      (∀ j, j ≠ i →
        appSlot (appAdd s id text icon textColor duration lifetime priority
          isSystem defaultDuration now).2 j = appSlot s j) ∧
      appSlot (appAdd s id text icon textColor duration lifetime priority
          isSystem defaultDuration now).2 i =
        { appSlot s i with
          text := text,
          icon := match icon with | some ic => ic | none => (appSlot s i).icon,
          label := "", textColor := textColor, textSegmentCount := 0,
          labelSegmentCount := 0, duration := duration, lifetime := lifetime,
          priority := priority, createdAt := now, active := true,
          zoneCount := 0 } ∧
      (appSlot (appAdd s id text icon textColor duration lifetime priority
          isSystem defaultDuration now).2 i).id = (appSlot s i).id ∧
      (appAdd s id text icon textColor duration lifetime priority isSystem
          defaultDuration now).2.appCount = s.appCount ∧
      activeCount (appAdd s id text icon textColor duration lifetime priority
          isSystem defaultDuration now).2 = activeCount s) ∧
    (appFind s id = none →
      (∀ k, firstIdx (fun a => !a.active) s.apps = some k →
        (appAdd s id text icon textColor duration lifetime priority isSystem
            defaultDuration now).1 = Int.ofNat k ∧
        (appSlot s k).active = false ∧
        (∀ j, j < k → (appSlot s j).active = true) ∧
        (∀ j, j ≠ k →
          appSlot (appAdd s id text icon textColor duration lifetime priority
            isSystem defaultDuration now).2 j = appSlot s j) ∧
        (appSlot (appAdd s id text icon textColor duration lifetime priority
            isSystem defaultDuration now).2 k).id = id ∧
        (appSlot (appAdd s id text icon textColor duration lifetime priority
            isSystem defaultDuration now).2 k).active = true ∧
        (appAdd s id text icon textColor duration lifetime priority isSystem
            defaultDuration now).2.appCount = s.appCount + 1) ∧
      (firstIdx (fun a => !a.active) s.apps = none →
        (∀ j, j < s.apps.length → (appSlot s j).active = true) ∧
        appAdd s id text icon textColor duration lifetime priority isSystem
          defaultDuration now = (-1, s))) := by
  constructor
  · intro i hfind
    obtain ⟨hi, hpred, _⟩ := firstIdx_eq_some (d := emptyApp) hfind
    have hact : (s.apps.getD i emptyApp).active = true := by
      have := hpred
      simp only [Bool.and_eq_true] at this
      exact this.1
    simp only [appAdd, hfind]
    refine ⟨by trivial, ?_, ?_, ?_, by trivial, ?_⟩
    · intro j hj
      simp only [appSlot, getD_set]
      rw [if_neg (fun hc => hj hc.1.symm)]
    · simp only [appSlot, getD_set]
      rw [if_pos ⟨by trivial, hi⟩]
    · simp only [appSlot, getD_set]
      rw [if_pos ⟨by trivial, hi⟩]
    · simp only [activeCount]
      apply congrArg List.length
      apply List.filter_congr
      intro j _
      simp only [appSlot, getD_set]
      by_cases hc : i = j ∧ j < s.apps.length
      · rw [if_pos hc, ← hc.1]
        simp only
        rw [hact]
      · rw [if_neg hc]
  · intro hfind
    constructor
    · intro k hfree
      obtain ⟨hk, hpredk, hmin⟩ := firstIdx_eq_some (d := emptyApp) hfree
      have hkact : (s.apps.getD k emptyApp).active = false := by
        simpa using hpredk
      simp only [appAdd, hfind, hfree]
      refine ⟨by trivial, hkact, ?_, ?_, ?_, ?_, by trivial⟩
      · intro j hj
        have := hmin j hj
        simp only [appSlot]
        simpa using this
      · intro j hj
        simp only [appSlot, getD_set]
        rw [if_neg (fun hc => hj hc.1.symm)]
      · simp only [appSlot, getD_set]
        rw [if_pos ⟨by trivial, hk⟩]
      · simp only [appSlot, getD_set]
        rw [if_pos ⟨by trivial, hk⟩]
    · intro hfull
      refine ⟨?_, ?_⟩
      · intro j hj
        have := firstIdx_eq_none (d := emptyApp) hfull j hj
        simp only [appSlot]
        simpa using this
      · simp only [appAdd, hfind, hfull]

/-- C3 witness: adding a fresh id to the full concrete table fails with -1 and
leaves the table unchanged. -/
theorem C3_addOrUpdate_witness :
    appAdd c3FullState "x" "t" none 0 0 0 0 false 7000 5 = (-1, c3FullState) :=
  ((C3_addOrUpdate c3FullState "x" "t" none 0 0 0 0 false 7000 5).2
    (by decide)).2 (by decide) |>.2

/-- C9: a stack-mode urgent `notifAdd` while slot `j` is current and already
displayed redirects the current pointer to the new item's slot without
touching the interrupted notification: it stays active with its nonzero
first-displayed stamp — and `notifGetNext` only ever selects slots whose
first-displayed stamp is still 0, so the interrupted item is never selected
again. -/
theorem C9_urgent_interrupt (s : NotifState) (j k : Nat)
    (id text icon : String) (textColor bgColor duration : Nat) (hold : Bool)
    (now : Nat)
    (hcur : s.currentNotifIndex = Int.ofNat j)
    (hjact : (notifSlot s j).active = true)
    (hjdisp : (notifSlot s j).displayedAt ≠ 0)
    (hfree : firstIdx (fun n => !n.active) s.notifications = some k) :
    (notifAdd s id text icon textColor bgColor duration hold true true now).1 =
      Int.ofNat k ∧
    (notifAdd s id text icon textColor bgColor duration hold true true
      now).2.currentNotifIndex = Int.ofNat k ∧
    k ≠ j ∧
    notifSlot (notifAdd s id text icon textColor bgColor duration hold true
      true now).2 j = notifSlot s j ∧
    (∀ (t : NotifState) (m : Nat), (notifGetNext t).1 = some m →
      (notifSlot t m).displayedAt = 0) := by
  have hkne : k ≠ j := by
    intro hkj
    obtain ⟨_, hpk, _⟩ := firstIdx_eq_some (d := emptyNotification) hfree
    rw [hkj] at hpk
    simp only [notifSlot] at hjact
    rw [hjact] at hpk
    exact absurd hpk (by simp)
  refine ⟨?_, ?_, hkne, ?_, ?_⟩
  · simp [notifAdd, hfree]
  · simp [notifAdd, hfree]
  · simp [notifAdd, hfree, notifSlot, getD_set, hkne]
  · intro t m h
    simp only [notifGetNext] at h
    by_cases hc : t.notificationCount = 0
    · rw [if_pos hc] at h
      exact absurd h (by simp)
    · rw [if_neg hc] at h
      cases h1 : firstIdx
          (fun n => n.active && n.urgent && n.displayedAt == 0)
          t.notifications with
      | some i =>
        rw [h1] at h
        simp only at h
        have hm : i = m := by simpa using h
        subst hm
        have := (firstIdx_eq_some (d := emptyNotification) h1).2.1
        simp only [Bool.and_eq_true, beq_iff_eq] at this
        exact this.2
      | none =>
        rw [h1] at h
        cases h2 : firstIdx (fun n => n.active && n.displayedAt == 0)
            t.notifications with
        | some i =>
          rw [h2] at h
          simp only at h
          have hm : i = m := by simpa using h
          subst hm
          have := (firstIdx_eq_some (d := emptyNotification) h2).2.1
          simp only [Bool.and_eq_true, beq_iff_eq] at this
          exact this.2
        | none =>
          rw [h2] at h
          exact absurd h (by simp)

/-- C9 witness: the concrete urgent stack-mode add lands in slot 1, becomes
current, and leaves the interrupted slot 0 untouched. -/
theorem C9_urgent_interrupt_witness :
    (notifAdd c9State "U" "go" "" 0 0 1000 false true true 99).2.currentNotifIndex =
      Int.ofNat 1 ∧
    notifSlot (notifAdd c9State "U" "go" "" 0 0 1000 false true true 99).2 0 =
      notifSlot c9State 0 :=
  ⟨(C9_urgent_interrupt c9State 0 1 "U" "go" "" 0 0 1000 false 99 rfl
      (by decide) (by decide) (by decide)).2.1,
   (C9_urgent_interrupt c9State 0 1 "U" "go" "" 0 0 1000 false 99 rfl
      (by decide) (by decide) (by decide)).2.2.2.1⟩

/-- C1 counterexample: in the state reached by the run above, both "B"
(arrived at t=20, slot 1) and "C" (arrived at t=40, slot 0) are queued,
not yet displayed and non-urgent, yet `notifGetNext` selects slot 0 — the
*newer* notification "C" — because the second selection pass scans by slot
index, not by arrival time.  The claim's "oldest by arrival" rule would
require "B" to be selected. -/
theorem C1_counterexample :
    (notifGetNext c1S6).1 = some 0 ∧
    (notifSlot c1S6 0).id = "C" ∧ (notifSlot c1S6 0).urgent = false ∧
    (notifSlot c1S6 1).id = "B" ∧ (notifSlot c1S6 1).urgent = false ∧
    (notifSlot c1S6 1).active = true ∧ (notifSlot c1S6 1).displayedAt = 0 := by
  decide

/-- C1 (amended): when a notification is queued and none is showing, the
scheduler selects the *lowest-numbered* slot holding an urgent
not-yet-displayed notification if any exists, otherwise the lowest-numbered
slot holding any not-yet-displayed notification (slot order coincides with
arrival order only until a freed slot is reused), marks it current, and its
first-displayed timestamp is stamped on first render; an urgent notification
is always selected ahead of every non-urgent one. -/
theorem C1_selection (s : NotifState)
    (hlen : s.notifications.length = 10)
    (hcount : s.notificationCount =
      (s.notifications.filter (fun n => n.active)).length) :
    (∀ i, (notifGetNext s).1 = some i →
      i < 10 ∧ (notifSlot s i).active = true ∧ (notifSlot s i).displayedAt = 0 ∧
      (notifGetNext s).2.currentNotifIndex = Int.ofNat i ∧
      (((notifSlot s i).urgent = true ∧
        ∀ j, j < i → ¬((notifSlot s j).active = true ∧
          (notifSlot s j).urgent = true ∧ (notifSlot s j).displayedAt = 0)) ∨
       ((∀ j, j < 10 → ¬((notifSlot s j).active = true ∧
          (notifSlot s j).urgent = true ∧ (notifSlot s j).displayedAt = 0)) ∧
        (∀ j, j < i → ¬((notifSlot s j).active = true ∧
          (notifSlot s j).displayedAt = 0))))) ∧
    ((∃ j, j < 10 ∧ (notifSlot s j).active = true ∧
        (notifSlot s j).urgent = true ∧ (notifSlot s j).displayedAt = 0) →
      ∃ i, (notifGetNext s).1 = some i ∧ (notifSlot s i).urgent = true) ∧
    ((∃ j, j < 10 ∧ (notifSlot s j).active = true ∧
        (notifSlot s j).displayedAt = 0) →
      ∃ i, (notifGetNext s).1 = some i) ∧
    (∀ i now, i < 10 → (notifSlot s i).active = true →
      (notifSlot s i).displayedAt = 0 →
      (notifSlot (showNotification s i now) i).displayedAt = now) := by
  have hcnt : ∀ j, j < 10 → (notifSlot s j).active = true →
      s.notificationCount ≠ 0 := by
    intro j hj hact
    have hmem : notifSlot s j ∈ s.notifications :=
      getD_mem (by omega) emptyNotification
    have : notifSlot s j ∈ s.notifications.filter (fun n => n.active) :=
      List.mem_filter.mpr ⟨hmem, hact⟩
    rw [hcount]
    intro hzero
    rw [List.length_eq_zero] at hzero
    rw [hzero] at this
    exact absurd this (by simp)
  refine ⟨?_, ?_, ?_, ?_⟩
  · intro i h
    simp only [notifGetNext] at h
    by_cases hc : s.notificationCount = 0
    · rw [if_pos hc] at h
      exact absurd h (by simp)
    · rw [if_neg hc] at h
      cases h1 : firstIdx
          (fun n => n.active && n.urgent && n.displayedAt == 0)
          s.notifications with
      | some i0 =>
        rw [h1] at h
        simp only at h
        have hm : i0 = i := by simpa using h
        subst hm
        obtain ⟨hlt, hp, hmin⟩ := firstIdx_eq_some (d := emptyNotification) h1
        simp only [Bool.and_eq_true, beq_iff_eq] at hp
        refine ⟨by omega, hp.1.1, hp.2, ?_, Or.inl ⟨hp.1.2, ?_⟩⟩
        · simp only [notifGetNext, if_neg hc, h1]
        · intro j hj hbad
          have := hmin j hj
          simp only [notifSlot] at hbad
          rw [hbad.1, hbad.2.1, hbad.2.2] at this
          exact absurd this (by simp)
      | none =>
        rw [h1] at h
        cases h2 : firstIdx (fun n => n.active && n.displayedAt == 0)
            s.notifications with
        | some i0 =>
          rw [h2] at h
          simp only at h
          have hm : i0 = i := by simpa using h
          subst hm
          obtain ⟨hlt, hp, hmin⟩ := firstIdx_eq_some (d := emptyNotification) h2
          simp only [Bool.and_eq_true, beq_iff_eq] at hp
          refine ⟨by omega, hp.1, hp.2, ?_, Or.inr ⟨?_, ?_⟩⟩
          · simp only [notifGetNext, if_neg hc, h1, h2]
          · intro j hj hbad
            have := firstIdx_eq_none (d := emptyNotification) h1 j (by omega)
            simp only [notifSlot] at hbad
            rw [hbad.1, hbad.2.1, hbad.2.2] at this
            exact absurd this (by simp)
          · intro j hj hbad
            have := hmin j hj
            simp only [notifSlot] at hbad
            rw [hbad.1, hbad.2] at this
            exact absurd this (by simp)
        | none =>
          rw [h2] at h
          exact absurd h (by simp)
  · rintro ⟨j, hj, hact, hurg, hdisp⟩
    have hc := hcnt j hj hact
    simp only [notifSlot] at hact hurg hdisp
    have hbool : ((s.notifications.getD j emptyNotification).active &&
        (s.notifications.getD j emptyNotification).urgent &&
        ((s.notifications.getD j emptyNotification).displayedAt == 0)) = true := by
      rw [hact, hurg, hdisp]; decide
    obtain ⟨i0, hi0⟩ := firstIdx_isSome
      (p := fun n => n.active && n.urgent && n.displayedAt == 0)
      (l := s.notifications) (d := emptyNotification) ⟨j, by omega, hbool⟩
    refine ⟨i0, ?_, ?_⟩
    · simp only [notifGetNext, if_neg hc, hi0]
    · have := (firstIdx_eq_some (d := emptyNotification) hi0).2.1
      simp only [Bool.and_eq_true, beq_iff_eq] at this
      exact this.1.2
  · rintro ⟨j, hj, hact, hdisp⟩
    have hc := hcnt j hj hact
    cases h1 : firstIdx (fun n => n.active && n.urgent && n.displayedAt == 0)
        s.notifications with
    | some i0 => exact ⟨i0, by simp only [notifGetNext, if_neg hc, h1]⟩
    | none =>
      simp only [notifSlot] at hact hdisp
      have hbool : ((s.notifications.getD j emptyNotification).active &&
          ((s.notifications.getD j emptyNotification).displayedAt == 0)) = true := by
        rw [hact, hdisp]; decide
      obtain ⟨i0, hi0⟩ := firstIdx_isSome
        (p := fun n => n.active && n.displayedAt == 0)
        (l := s.notifications) (d := emptyNotification) ⟨j, by omega, hbool⟩
      exact ⟨i0, by simp only [notifGetNext, if_neg hc, h1, hi0]⟩
  · intro i now hi hact hdisp
    simp only [showNotification, notifSlot] at hact hdisp ⊢
    rw [if_neg (by rw [hact]; simp), if_pos hdisp]
    simp only [getD_set]
    rw [if_pos ⟨by trivial, by omega⟩]

/-- C1 witness: on the concrete queue the selected notification is urgent
(slot 1 beats the non-urgent slot 0). -/
theorem C1_selection_witness :
    ∃ i, (notifGetNext c1WState).1 = some i ∧
      (notifSlot c1WState i).urgent = true :=
  (C1_selection c1WState rfl rfl).2.1 ⟨1, by omega, by decide, by decide, by decide⟩

/-- The `findLRUSlot` loop returns `Sum.inl` at the first invalid slot. -/
theorem lruLoop_inl :
    ∀ (l : List CachedIcon) (i : Nat) (lru : Int) (t : Nat) (j : Nat),
      firstIdxFrom (fun c => !c.valid) l i = some j →
      lruLoop l i lru t = Sum.inl j
  | [], _, _, _, _, h => by simp [firstIdxFrom] at h
  | c :: rest, i, lru, t, j, h => by
    by_cases hv : c.valid = true
    · have hp : (!c.valid) = false := by simp [hv]
      simp only [firstIdxFrom, hp, Bool.false_eq_true, if_false] at h
      simp only [lruLoop]
      rw [if_neg (by simp [hv])]
      split
      · exact lruLoop_inl rest (i + 1) _ _ j h
      · exact lruLoop_inl rest (i + 1) _ _ j h
    · have hv' : c.valid = false := by simpa using hv
      have hp : (!c.valid) = true := by simp [hv']
      simp only [firstIdxFrom, hp, if_true] at h
      have hj : j = i := by simpa using h.symm
      subst hj
      simp only [lruLoop]
      rw [if_pos (by simp [hv'])]

/-- The `findLRUSlot` loop over all-valid slots: either no slot beats the
incoming `oldestTime` and the accumulator survives, or it returns the first
slot attaining the minimum `lastUsed`. -/
theorem lruLoop_spec :
    ∀ (l : List CachedIcon) (i : Nat) (lru : Int) (t : Nat),
      (∀ c ∈ l, c.valid = true) →
      (lruLoop l i lru t = Sum.inr lru ∧ ∀ c ∈ l, t ≤ c.lastUsed) ∨
      (∃ j, i ≤ j ∧ j < i + l.length ∧
        lruLoop l i lru t = Sum.inr (Int.ofNat j) ∧
        (l.getD (j - i) emptyCachedIcon).lastUsed < t ∧
        (∀ k, k < l.length →
          (l.getD (j - i) emptyCachedIcon).lastUsed ≤
            (l.getD k emptyCachedIcon).lastUsed) ∧
        (∀ k, k < j - i →
          (l.getD (j - i) emptyCachedIcon).lastUsed <
            (l.getD k emptyCachedIcon).lastUsed))
  | [], i, lru, t, _ => Or.inl ⟨rfl, by simp⟩
  | c :: rest, i, lru, t, hval => by
    have hv : c.valid = true := hval c (by simp)
    by_cases hlt : c.lastUsed < t
    · rcases lruLoop_spec rest (i + 1) (Int.ofNat i) c.lastUsed
          (fun c' hc' => hval c' (by simp [hc'])) with
        ⟨heq, hall⟩ | ⟨j, hj1, hj2, heq, hjt, hmin, hstrict⟩
      · refine Or.inr ⟨i, Nat.le_refl i, by simp, ?_, ?_, ?_, ?_⟩
        · simp only [lruLoop]
          rw [if_neg (by simp [hv]), if_pos hlt]
          exact heq
        · simpa using hlt
        · intro k hk
          simp only [Nat.sub_self, List.getD_cons_zero]
          match k with
          | 0 => simp
          | k' + 1 =>
            have hk' : k' < rest.length := by simpa using hk
            have := hall (rest.getD k' emptyCachedIcon) (getD_mem hk' _)
            simpa using this
        · intro k hk
          omega
      · have hji : j - i = (j - (i + 1)) + 1 := by omega
        refine Or.inr ⟨j, by omega, by simp; omega, ?_, ?_, ?_, ?_⟩
        · simp only [lruLoop]
          rw [if_neg (by simp [hv]), if_pos hlt]
          exact heq
        · rw [hji]
          simp only [List.getD_cons_succ]
          exact lt_trans hjt hlt
        · intro k hk
          rw [hji]
          simp only [List.getD_cons_succ]
          match k with
          | 0 =>
            simp only [List.getD_cons_zero]
            exact le_of_lt hjt
          | k' + 1 =>
            have := hmin k' (by simpa using hk)
            simpa using this
        · intro k hk
          rw [hji]
          simp only [List.getD_cons_succ]
          match k with
          | 0 =>
            simp only [List.getD_cons_zero]
            exact hjt
          | k' + 1 =>
            have := hstrict k' (by omega)
            simpa using this
    · rcases lruLoop_spec rest (i + 1) lru t
          (fun c' hc' => hval c' (by simp [hc'])) with
        ⟨heq, hall⟩ | ⟨j, hj1, hj2, heq, hjt, hmin, hstrict⟩
      · refine Or.inl ⟨?_, ?_⟩
        · simp only [lruLoop]
          rw [if_neg (by simp [hv]), if_neg hlt]
          exact heq
        · intro c' hc'
          rcases List.mem_cons.mp hc' with rfl | hmem
          · omega
          · exact hall c' hmem
      · have hji : j - i = (j - (i + 1)) + 1 := by omega
        refine Or.inr ⟨j, by omega, by simp; omega, ?_, ?_, ?_, ?_⟩
        · simp only [lruLoop]
          rw [if_neg (by simp [hv]), if_neg hlt]
          exact heq
        · rw [hji]
          simp only [List.getD_cons_succ]
          omega
        · intro k hk
          rw [hji]
          simp only [List.getD_cons_succ]
          match k with
          | 0 =>
            simp only [List.getD_cons_zero]
            omega
          | k' + 1 =>
            have := hmin k' (by simpa using hk)
            simpa using this
        · intro k hk
          rw [hji]
          simp only [List.getD_cons_succ]
          match k with
          | 0 =>
            simp only [List.getD_cons_zero]
            omega
          | k' + 1 =>
            have := hstrict k' (by omega)
            simpa using this

/-- C5: `findLRUSlot` returns the first invalid cache slot, unchanged, when
one exists; on a full cache it frees exactly the first slot attaining the
minimum `lastUsed` and returns it — so a strictly-oldest entry is exactly the
one evicted, and a subsequent `loadIcon` of a new name installs into that
slot. -/
theorem C5_lru_eviction (cache : List CachedIcon) (hlen : cache.length = 8) :
    (∀ i, firstIdx (fun c => !c.valid) cache = some i →
      findLRUSlot cache = (Int.ofNat i, cache)) ∧
    ((∀ c ∈ cache, c.valid = true) →
      (∀ c ∈ cache, c.lastUsed < 4294967295) →
      (∀ c ∈ cache, c.pixels ≠ none) →
      ∃ j, j < 8 ∧
        findLRUSlot cache =
          (Int.ofNat j,
           cache.set j
             { cache.getD j emptyCachedIcon with
                 pixels := none, valid := false }) ∧
        (∀ k, k < 8 → (cache.getD j emptyCachedIcon).lastUsed ≤
          (cache.getD k emptyCachedIcon).lastUsed) ∧
        (∀ k, k < j → (cache.getD j emptyCachedIcon).lastUsed <
          (cache.getD k emptyCachedIcon).lastUsed) ∧
        (∀ m, m < 8 →
          (∀ k, k < 8 → k ≠ m →
            (cache.getD m emptyCachedIcon).lastUsed <
              (cache.getD k emptyCachedIcon).lastUsed) →
          j = m) ∧
        (∀ (fs : String → Option SourceImage) (img : SourceImage)
            (name : String) (now : Nat), name ≠ "" → fs name = some img →
          (loadIcon cache fs name now).1 = some j ∧
          ((loadIcon cache fs name now).2.getD j emptyCachedIcon).name =
            name)) := by
  constructor
  · intro i hinv
    have := lruLoop_inl cache 0 (-1) 4294967295 i hinv
    simp only [findLRUSlot, this]
  · intro hval hlast hpix
    rcases lruLoop_spec cache 0 (-1) 4294967295 hval with
      ⟨_, hall⟩ | ⟨j, _, hj2, heq, _, hmin, hstrict⟩
    · exfalso
      have hmem : cache.getD 0 emptyCachedIcon ∈ cache :=
        getD_mem (by omega) emptyCachedIcon
      have h1 := hall _ hmem
      have h2 := hlast _ hmem
      omega
    · have hj : j < 8 := by omega
      simp only [Nat.sub_zero] at hmin hstrict
      have hfind : findLRUSlot cache =
          (Int.ofNat j,
           cache.set j
             { cache.getD j emptyCachedIcon with
                 pixels := none, valid := false }) := by
        simp only [findLRUSlot, heq]
        rw [if_pos (by exact Int.ofNat_nonneg j)]
        rw [show (Int.ofNat j).toNat = j from rfl]
        rw [if_pos (hpix _ (getD_mem (by omega) emptyCachedIcon))]
      refine ⟨j, hj, hfind, ?_, hstrict, ?_, ?_⟩
      · intro k hk
        exact hmin k (by omega)
      · intro m hm hmonly
        by_contra hne
        have h1 := hmin m (by omega)
        have h2 := hmonly j hj hne
        omega
      · intro fs img name now hname hfs
        simp only [loadIcon]
        rw [if_neg hname, hfs]
        simp only [hfind]
        rw [if_neg (by exact not_lt.mpr (Int.ofNat_nonneg j))]
        rw [show (Int.ofNat j).toNat = j from rfl]
        refine ⟨rfl, ?_⟩
        simp only [getD_set, List.length_set]
        rw [if_pos ⟨by trivial, by omega⟩]

/-- C5 witness: on the concrete full cache an eviction slot exists with all
the stated minimality properties. -/
theorem C5_lru_eviction_witness :
    ∃ j, j < 8 ∧
      findLRUSlot c5Cache =
        (Int.ofNat j,
         c5Cache.set j
           { c5Cache.getD j emptyCachedIcon with
               pixels := none, valid := false }) ∧
      (∀ k, k < 8 → (c5Cache.getD j emptyCachedIcon).lastUsed ≤
        (c5Cache.getD k emptyCachedIcon).lastUsed) ∧
      (∀ k, k < j → (c5Cache.getD j emptyCachedIcon).lastUsed <
        (c5Cache.getD k emptyCachedIcon).lastUsed) ∧
      (∀ m, m < 8 →
        (∀ k, k < 8 → k ≠ m →
          (c5Cache.getD m emptyCachedIcon).lastUsed <
            (c5Cache.getD k emptyCachedIcon).lastUsed) →
        j = m) ∧
      (∀ (fs : String → Option SourceImage) (img : SourceImage)
          (name : String) (now : Nat), name ≠ "" → fs name = some img →
        (loadIcon c5Cache fs name now).1 = some j ∧
        ((loadIcon c5Cache fs name now).2.getD j emptyCachedIcon).name =
          name) :=
  (C5_lru_eviction c5Cache rfl).2 (by decide) (by decide) (by decide)

/-- The `addFailedIconDownload` eviction scan stays inside the ring. -/
theorem failedScanLoop_lt :
    ∀ (l : List FailedIconDownload) (i best t N : Nat),
      best < N → i + l.length ≤ N → failedScanLoop l i best t < N
  | [], _, best, t, N, hb, _ => by simpa [failedScanLoop] using hb
  | f :: rest, i, best, t, N, hb, hl => by
    have hl' : (i + 1) + rest.length ≤ N := by
      simp only [List.length_cons] at hl
      omega
    simp only [failedScanLoop]
    split
    · omega
    · split
      · exact failedScanLoop_lt rest (i + 1) i _ N (by omega) hl'
      · exact failedScanLoop_lt rest (i + 1) best _ N hb hl'

/-- The `addFailedIconDownload` eviction scan over a ring of nonempty names:
either nothing beats the incoming `oldestTime` and the accumulator survives,
or it returns the first index attaining the minimum `failedAt`. -/
theorem failedScanLoop_spec :
    ∀ (l : List FailedIconDownload) (i best t : Nat),
      (∀ f ∈ l, f.name ≠ "") →
      (failedScanLoop l i best t = best ∧ ∀ f ∈ l, t ≤ f.failedAt) ∨
      (∃ j, i ≤ j ∧ j < i + l.length ∧ failedScanLoop l i best t = j ∧
        (l.getD (j - i) emptyFailedIconDownload).failedAt < t ∧
        (∀ k, k < l.length →
          (l.getD (j - i) emptyFailedIconDownload).failedAt ≤
            (l.getD k emptyFailedIconDownload).failedAt) ∧
        (∀ k, k < j - i →
          (l.getD (j - i) emptyFailedIconDownload).failedAt <
            (l.getD k emptyFailedIconDownload).failedAt))
  | [], i, best, t, _ => Or.inl ⟨rfl, by simp⟩
  | f :: rest, i, best, t, hnames => by
    have hn : f.name ≠ "" := hnames f (by simp)
    by_cases hlt : f.failedAt < t
    · rcases failedScanLoop_spec rest (i + 1) i f.failedAt
          (fun f' hf' => hnames f' (by simp [hf'])) with
        ⟨heq, hall⟩ | ⟨j, hj1, hj2, heq, hjt, hmin, hstrict⟩
      · refine Or.inr ⟨i, Nat.le_refl i, by simp, ?_, ?_, ?_, ?_⟩
        · simp only [failedScanLoop]
          rw [if_neg hn, if_pos hlt]
          exact heq
        · simpa using hlt
        · intro k hk
          simp only [Nat.sub_self, List.getD_cons_zero]
          match k with
          | 0 => simp
          | k' + 1 =>
            have hk' : k' < rest.length := by simpa using hk
            have := hall (rest.getD k' emptyFailedIconDownload) (getD_mem hk' _)
            simpa using this
        · intro k hk
          omega
      · have hji : j - i = (j - (i + 1)) + 1 := by omega
        refine Or.inr ⟨j, by omega, by simp; omega, ?_, ?_, ?_, ?_⟩
        · simp only [failedScanLoop]
          rw [if_neg hn, if_pos hlt]
          exact heq
        · rw [hji]
          simp only [List.getD_cons_succ]
          exact lt_trans hjt hlt
        · intro k hk
          rw [hji]
          simp only [List.getD_cons_succ]
          match k with
          | 0 =>
            simp only [List.getD_cons_zero]
            exact le_of_lt hjt
          | k' + 1 =>
            have := hmin k' (by simpa using hk)
            simpa using this
        · intro k hk
          rw [hji]
          simp only [List.getD_cons_succ]
          match k with
          | 0 =>
            simp only [List.getD_cons_zero]
            exact hjt
          | k' + 1 =>
            have := hstrict k' (by omega)
            simpa using this
    · rcases failedScanLoop_spec rest (i + 1) best t
          (fun f' hf' => hnames f' (by simp [hf'])) with
        ⟨heq, hall⟩ | ⟨j, hj1, hj2, heq, hjt, hmin, hstrict⟩
      · refine Or.inl ⟨?_, ?_⟩
        · simp only [failedScanLoop]
          rw [if_neg hn, if_neg hlt]
          exact heq
        · intro f' hf'
          rcases List.mem_cons.mp hf' with rfl | hmem
          · omega
          · exact hall f' hmem
      · have hji : j - i = (j - (i + 1)) + 1 := by omega
        refine Or.inr ⟨j, by omega, by simp; omega, ?_, ?_, ?_, ?_⟩
        · simp only [failedScanLoop]
          rw [if_neg hn, if_neg hlt]
          exact heq
        · rw [hji]
          simp only [List.getD_cons_succ]
          omega
        · intro k hk
          rw [hji]
          simp only [List.getD_cons_succ]
          match k with
          | 0 =>
            simp only [List.getD_cons_zero]
            omega
          | k' + 1 =>
            have := hmin k' (by simpa using hk)
            simpa using this
        · intro k hk
          rw [hji]
          simp only [List.getD_cons_succ]
          match k with
          | 0 =>
            simp only [List.getD_cons_zero]
            omega
          | k' + 1 =>
            have := hstrict k' (by omega)
            simpa using this

/-- C6: a name inside the 5-minute blacklist window is short-circuited by
`getIcon` to a miss without touching the network or any state; a failed
download is recorded and blacklists the name for the window; the ring keeps
its fixed length 8 and, when full, the record overwrites the first entry with
the minimum (= oldest) failure time. -/
theorem C6_failure_blacklist (cache : List CachedIcon)
    (failed : List FailedIconDownload) (fs download : String → Option SourceImage)
    (name : String) (now t0 : Nat) :
    ((∀ c ∈ cache, ¬(c.valid = true ∧ c.name = name)) → fs name = none →
      isFailedIconDownload failed name now = true →
      getIcon cache failed fs download name now = ⟨none, cache, failed, false⟩) ∧
    ((∀ c ∈ cache, ¬(c.valid = true ∧ c.name = name)) → fs name = none →
      isFailedIconDownload failed name now = false → isLmNumeric name = true →
      download name = none →
      getIcon cache failed fs download name now =
        ⟨none, cache, addFailedIconDownload failed name now, true⟩) ∧
    (failed.length = 8 → name ≠ "" → t0 ≤ now → now - t0 < 300000 →
      isFailedIconDownload (addFailedIconDownload failed name t0) name now =
        true) ∧
    ((addFailedIconDownload failed name t0).length = failed.length) ∧
    ((∀ f ∈ failed, f.name ≠ "") → (∀ f ∈ failed, f.failedAt < 4294967295) →
      failed.length = 8 →
      ∃ j, j < 8 ∧
        addFailedIconDownload failed name t0 =
          failed.set j { name := name, failedAt := t0 } ∧
        (∀ k, k < 8 →
          (failed.getD j emptyFailedIconDownload).failedAt ≤
            (failed.getD k emptyFailedIconDownload).failedAt) ∧
        (∀ k, k < j →
          (failed.getD j emptyFailedIconDownload).failedAt <
            (failed.getD k emptyFailedIconDownload).failedAt)) := by
  have hsearch : (∀ c ∈ cache, ¬(c.valid = true ∧ c.name = name)) →
      firstIdx (fun c => c.valid && c.name == name) cache = none := by
    intro hnotin
    cases hfi : firstIdx (fun c => c.valid && c.name == name) cache with
    | none => rfl
    | some i =>
      obtain ⟨hi, hp, _⟩ := firstIdx_eq_some (d := emptyCachedIcon) hfi
      simp only [Bool.and_eq_true, beq_iff_eq] at hp
      exact absurd ⟨hp.1, hp.2⟩ (hnotin _ (getD_mem hi _))
  refine ⟨?_, ?_, ?_, ?_, ?_⟩
  · intro hnotin hfs hbl
    by_cases hname : name = ""
    · subst hname
      simp [getIcon]
    · simp only [getIcon]
      rw [if_neg hname, hsearch hnotin]
      simp only [loadIcon]
      rw [if_neg hname, hfs]
      simp only [hbl, Bool.not_true, Bool.and_false, Bool.false_eq_true,
        if_false]
  · intro hnotin hfs hbl hlm hdl
    have hname : name ≠ "" := by
      intro h
      rw [h] at hlm
      exact absurd hlm (by decide)
    simp only [getIcon]
    rw [if_neg hname, hsearch hnotin]
    simp only [loadIcon]
    rw [if_neg hname, hfs]
    simp only [hbl, hlm, Bool.not_false, Bool.and_true, if_true, hdl]
  · intro hlen8 hname ht hwin
    have hjlt : failedScanLoop failed 0 0 4294967295 < failed.length := by
      rw [hlen8]
      exact failedScanLoop_lt failed 0 0 4294967295 8 (by omega)
        (by rw [hlen8])
    simp only [addFailedIconDownload, isFailedIconDownload]
    rw [List.any_eq_true]
    refine ⟨{ name := name, failedAt := t0 }, ?_, ?_⟩
    · have hget : (failed.set (failedScanLoop failed 0 0 4294967295)
          { name := name, failedAt := t0 }).getD
          (failedScanLoop failed 0 0 4294967295) emptyFailedIconDownload =
          { name := name, failedAt := t0 } := by
        rw [getD_set, if_pos ⟨rfl, hjlt⟩]
      have hmem := getD_mem
        (l := failed.set (failedScanLoop failed 0 0 4294967295)
          { name := name, failedAt := t0 })
        (i := failedScanLoop failed 0 0 4294967295)
        (by rw [List.length_set]; exact hjlt) emptyFailedIconDownload
      rw [hget] at hmem
      exact hmem
    · simp [hname, hwin]
  · simp only [addFailedIconDownload]
    exact List.length_set _ _ _
  · intro hnames hlast hlen8
    rcases failedScanLoop_spec failed 0 0 4294967295 hnames with
      ⟨_, hall⟩ | ⟨j, _, hj2, heq, _, hmin, hstrict⟩
    · exfalso
      have hmem : failed.getD 0 emptyFailedIconDownload ∈ failed :=
        getD_mem (by omega) emptyFailedIconDownload
      have h1 := hall _ hmem
      have h2 := hlast _ hmem
      omega
    · simp only [Nat.sub_zero] at hmin hstrict
      refine ⟨j, by omega, ?_, ?_, hstrict⟩
      · simp only [addFailedIconDownload, heq]
      · intro k hk
        exact hmin k (by omega)

/-- C6 witness: recording a failure for "lm_42" at t=100 blacklists it at
t=200 (inside the 5-minute window). -/
theorem C6_failure_blacklist_witness :
    isFailedIconDownload (addFailedIconDownload c6Ring "lm_42" 100)
      "lm_42" 200 = true :=
  (C6_failure_blacklist [] c6Ring (fun _ => none) (fun _ => none)
    "lm_42" 200 100).2.2.1 rfl (by decide) (by omega) (by decide)

/-- Indexing into the decoded pixel buffer: entry `(x, y)` holds the converted
source pixel when the callback wrote it (`y < 16` and inside the source), and
the `memset` zero otherwise. -/
theorem pngDecodeBuffer_getD (img : SourceImage) (w h x y : Nat)
    (hx : x < w) (hy : y < h) :
    (pngDecodeBuffer img w h).getD (y * w + x) 0 =
      if y < 16 ∧ y < img.height ∧ x < img.width then pngPixel565 (img.pix x y)
      else 0 := by
  have hidx : y * w + x < w * h := by
    have h1 : y * w + x < (y + 1) * w := by
      have : (y + 1) * w = y * w + w := by ring
      omega
    have h2 : (y + 1) * w ≤ h * w := Nat.mul_le_mul_right w hy
    have h3 : h * w = w * h := Nat.mul_comm h w
    omega
  have hw : 0 < w := by omega
  have hdiv : (y * w + x) / w = y := by
    calc (y * w + x) / w = (x + y * w) / w := by rw [Nat.add_comm]
    _ = x / w + y := Nat.add_mul_div_right x y hw
    _ = y := by rw [Nat.div_eq_of_lt hx, Nat.zero_add]
  have hmod : (y * w + x) % w = x := by
    rw [Nat.add_comm, Nat.add_mul_mod_self_right]
    exact Nat.mod_eq_of_lt hx
  simp only [pngDecodeBuffer, List.getD_eq_getElem?_getD,
    List.getElem?_map, List.getElem?_range hidx, Option.map_some',
    Option.getD_some]
  rw [hdiv, hmod]

/-- `drawIcon` never emits a draw command whose colour is the transparency
sentinel 0. -/
theorem drawIcon_skips_zero (icon : CachedIcon) (x y : Int)
    (d : Int × Int × Nat) (hmem : d ∈ drawIcon icon x y) : d.2.2 ≠ 0 := by
  unfold drawIcon at hmem
  by_cases hg : ¬icon.valid = true ∨ icon.pixels = none
  · rw [if_pos hg] at hmem
    simp at hmem
  · rw [if_neg hg] at hmem
    obtain ⟨py, hpy, hmem⟩ := List.mem_flatMap.mp hmem
    obtain ⟨px, hpx, hmem⟩ := List.mem_flatMap.mp hmem
    by_cases hz :
        (icon.pixels.getD []).getD (py * icon.width + px) 0 ≠ 0
    · rw [if_pos hz] at hmem
      split at hmem
      · simp only [List.mem_cons, List.not_mem_nil, or_false] at hmem
        rcases hmem with rfl | rfl | rfl | rfl <;> exact hz
      · simp only [List.mem_cons, List.not_mem_nil, or_false] at hmem
        rcases hmem with rfl
        exact hz
    · rw [if_neg hz] at hmem
      simp at hmem

/-- C7 counterexample: loading the opaque-white 1×17 image stores the claimed
clamped dimensions 1×17, but the buffer entry for row 16 is 0 — not the
converted source pixel 65535 — because `pngDrawCallback` rejects every line
with `y >= 16`; so the pixel buffer does *not* carry the decoded content over
the whole clamped (≤ 32×32) area. -/
theorem C7_counterexample :
    c7Run.1 = some 0 ∧
    (c7Run.2.getD 0 emptyCachedIcon).width = 1 ∧
    (c7Run.2.getD 0 emptyCachedIcon).height = 17 ∧
    ((c7Run.2.getD 0 emptyCachedIcon).pixels.getD []).getD 16 99 = 0 ∧
    pngPixel565 (c7Image.pix 0 16) = 65535 := by
  decide

/-- C7 (amended): a loaded icon's dimensions are the source dimensions clamped
to at most 32×32, and the stored buffer carries the decoded source content
(alpha < 128 ⇒ transparency sentinel 0) only for rows `y < 16` — rows 16 and
beyond of a taller clamped area stay 0 — while `drawIcon` never emits a pixel
whose stored value is 0. -/
theorem C7_decode_policy (cache : List CachedIcon)
    (fs : String → Option SourceImage) (img : SourceImage) (name : String)
    (now : Nat) (j : Nat) (cache₁ : List CachedIcon)
    (hname : name ≠ "") (hfs : fs name = some img)
    (hslot : findLRUSlot cache = (Int.ofNat j, cache₁))
    (hjlen : j < cache₁.length) :
    (loadIcon cache fs name now).1 = some j ∧
    ((loadIcon cache fs name now).2.getD j emptyCachedIcon).width =
      min img.width 32 ∧
    ((loadIcon cache fs name now).2.getD j emptyCachedIcon).height =
      min img.height 32 ∧
    ((loadIcon cache fs name now).2.getD j emptyCachedIcon).width ≤ 32 ∧
    ((loadIcon cache fs name now).2.getD j emptyCachedIcon).height ≤ 32 ∧
    (∀ x y, x < min img.width 32 → y < min img.height 32 →
      ((((loadIcon cache fs name now).2.getD j
          emptyCachedIcon).pixels.getD []).getD
            (y * min img.width 32 + x) 0 =
        if y < 16 then pngPixel565 (img.pix x y) else 0)) ∧
    (∀ r g b a, a < 128 → pngPixel565 (r, g, b, a) = 0) ∧
    (∀ (icon : CachedIcon) (x y : Int) (dcmd : Int × Int × Nat),
      dcmd ∈ drawIcon icon x y → dcmd.2.2 ≠ 0) := by
  have hload : loadIcon cache fs name now =
      (some j,
       cache₁.set j
         { name := name,
           pixels := some (pngDecodeBuffer img (min img.width 32)
             (min img.height 32)),
           width := min img.width 32, height := min img.height 32,
           valid := true, lastUsed := now }) := by
    simp only [loadIcon]
    rw [if_neg hname, hfs]
    simp only [hslot]
    rw [if_neg (show ¬(Int.ofNat j < 0) from not_lt.mpr (Int.ofNat_nonneg j))]
    rw [show (Int.ofNat j).toNat = j from rfl]
  have hentry : (loadIcon cache fs name now).2.getD j emptyCachedIcon =
      { name := name,
        pixels := some (pngDecodeBuffer img (min img.width 32)
          (min img.height 32)),
        width := min img.width 32, height := min img.height 32,
        valid := true, lastUsed := now } := by
    rw [hload]
    simp only [getD_set]
    rw [if_pos ⟨by trivial, hjlen⟩]
  refine ⟨by rw [hload], by rw [hentry], by rw [hentry],
    by rw [hentry]; exact Nat.min_le_right _ _,
    by rw [hentry]; exact Nat.min_le_right _ _, ?_, ?_, ?_⟩
  · intro x y hx hy
    rw [hentry]
    simp only [Option.getD_some]
    have hxw : x < img.width := lt_of_lt_of_le hx (Nat.min_le_left _ _)
    have hyh : y < img.height := lt_of_lt_of_le hy (Nat.min_le_left _ _)
    rw [pngDecodeBuffer_getD img _ _ x y hx hy]
    by_cases hy16 : y < 16
    · rw [if_pos ⟨hy16, hyh, hxw⟩, if_pos hy16]
    · rw [if_neg (fun hc => hy16 hc.1), if_neg hy16]
  · intro r g b a ha
    simp only [pngPixel565]
    rw [if_pos ha]
  · exact fun icon x y dcmd hmem => drawIcon_skips_zero icon x y dcmd hmem

/-- C7 witness: loading the concrete 2×2 image through the empty cache
installs it in slot 0. -/
theorem C7_decode_policy_witness :
    (loadIcon c7Cache c7WFs "sq" 3).1 = some 0 :=
  (C7_decode_policy c7Cache c7WFs c7WImage "sq" 3 0 c7Cache (by decide) rfl
    rfl (by decide)).1

/-- `getD` on `replicate`. -/
theorem getD_replicate (n i : Nat) (a d : α) :
    (List.replicate n a).getD i d = if i < n then a else d := by
  induction n generalizing i with
  | zero => simp
  | succ n ih =>
    match i with
    | 0 => simp
    | i' + 1 =>
      simp only [List.replicate, List.getD_cons_succ, ih]
      by_cases h : i' < n
      · rw [if_pos h, if_pos (by omega)]
      · rw [if_neg h, if_neg (by omega)]

theorem weakens_refl (s : AppState) : Weakens s s :=
  ⟨rfl, fun _ => ⟨rfl, fun h => h⟩⟩

theorem weakens_trans {s t u : AppState} (h1 : Weakens s t)
    (h2 : Weakens t u) : Weakens s u :=
  ⟨h2.1.trans h1.1,
   fun m => ⟨(h2.2 m).1.trans (h1.2 m).1,
     fun h => (h1.2 m).2 ((h2.2 m).2 h)⟩⟩

theorem weakens_distinct {s s' : AppState} (hw : Weakens s s')
    (h : idsDistinct s) : idsDistinct s' := by
  intro i j hij hj hi' hj'
  rw [(hw.2 i).1, (hw.2 j).1]
  exact h i j hij (by rw [← hw.1]; exact hj) ((hw.2 i).2 hi') ((hw.2 j).2 hj')

theorem cleanStep_weakens (now : Nat) (st : AppState) (i : Nat) :
    Weakens st (cleanStep now st i) := by
  simp only [cleanStep]
  split
  · refine ⟨List.length_set _ _ _, ?_⟩
    intro m
    simp only [appSlot, getD_set]
    by_cases hc : i = m ∧ m < st.apps.length
    · rw [if_pos hc, ← hc.1]
      exact ⟨rfl, fun h => by simp at h⟩
    · rw [if_neg hc]
      exact ⟨rfl, fun h => h⟩
  · exact weakens_refl st

theorem cleanFold_weakens (now : Nat) :
    ∀ (l : List Nat) (s : AppState), Weakens s (l.foldl (cleanStep now) s)
  | [], s => weakens_refl s
  | i :: rest, s =>
    weakens_trans (cleanStep_weakens now s i)
      (cleanFold_weakens now rest (cleanStep now s i))

theorem appCleanExpired_weakens (s : AppState) (now : Nat) :
    Weakens s (appCleanExpired s now) :=
  cleanFold_weakens now (List.range 16) s

theorem appRemove_weakens (s : AppState) (id : String) :
    Weakens s (appRemove s id).2 := by
  simp only [appRemove]
  cases hfind : appFind s id with
  | none => exact weakens_refl s
  | some index =>
    simp only
    split
    · exact weakens_refl s
    · refine ⟨List.length_set _ _ _, ?_⟩
      intro m
      simp only [appSlot, getD_set]
      by_cases hc : index = m ∧ m < s.apps.length
      · rw [if_pos hc, ← hc.1]
        exact ⟨rfl, fun h => by simp at h⟩
      · rw [if_neg hc]
        exact ⟨rfl, fun h => h⟩

theorem appAdd_distinct (s : AppState) (id text : String) (icon : Option String)
    (textColor duration lifetime : Nat) (priority : Int) (isSystem : Bool)
    (defaultDuration now : Nat) (h : idsDistinct s) :
    idsDistinct (appAdd s id text icon textColor duration lifetime priority
      isSystem defaultDuration now).2 := by
  cases hfind : appFind s id with
  | some existingIndex =>
    obtain ⟨hi, hpred, _⟩ := firstIdx_eq_some (d := emptyApp) hfind
    have hact : (s.apps.getD existingIndex emptyApp).active = true := by
      simp only [Bool.and_eq_true] at hpred
      exact hpred.1
    apply weakens_distinct (s := s) _ h
    simp only [appAdd, hfind]
    refine ⟨List.length_set _ _ _, ?_⟩
    intro m
    simp only [appSlot, getD_set]
    by_cases hc : existingIndex = m ∧ m < s.apps.length
    · rw [if_pos hc, ← hc.1]
      exact ⟨rfl, fun _ => hact⟩
    · rw [if_neg hc]
      exact ⟨rfl, fun hh => hh⟩
  | none =>
    have hnotid : ∀ m, m < s.apps.length → (appSlot s m).active = true →
        (appSlot s m).id ≠ id := by
      intro m hm hactm heq
      have hfalse := firstIdx_eq_none (d := emptyApp) hfind m hm
      simp only [appSlot] at hactm heq
      rw [hactm, heq] at hfalse
      simp at hfalse
    cases hfree : firstIdx (fun a => !a.active) s.apps with
    | none =>
      simp only [appAdd, hfind, hfree]
      exact h
    | some k =>
      intro i j hij hj hi' hj'
      simp only [appAdd, hfind, hfree, appSlot, getD_set,
        List.length_set] at hi' hj' hj ⊢
      by_cases hik : k = i ∧ i < s.apps.length
      · rw [if_pos hik] at hi' ⊢
        have hjk : ¬(k = j ∧ j < s.apps.length) := fun hc => by omega
        rw [if_neg hjk] at hj' ⊢
        simp only
        exact fun heq => hnotid j hj hj' heq.symm
      · rw [if_neg hik] at hi' ⊢
        by_cases hjk : k = j ∧ j < s.apps.length
        · rw [if_pos hjk] at hj' ⊢
          simp only
          exact fun heq => hnotid i (by omega) hi' heq
        · rw [if_neg hjk] at hj' ⊢
          exact h i j hij hj hi' hj'

theorem applyAppOp_invariant (s : AppState) (op : AppOp)
    (hlen : s.apps.length = 16) (h : idsDistinct s) :
    (applyAppOp s op).apps.length = 16 ∧ idsDistinct (applyAppOp s op) := by
  cases op with
  | add id text icon textColor duration lifetime priority isSystem dd opnow =>
    refine ⟨?_, appAdd_distinct s id text icon textColor duration lifetime
      priority isSystem dd opnow h⟩
    simp only [applyAppOp, appAdd]
    cases hfind : appFind s id with
    | some i => simp only [List.length_set]; exact hlen
    | none =>
      cases hfree : firstIdx (fun a => !a.active) s.apps with
      | none => exact hlen
      | some k => simp only [List.length_set]; exact hlen
  | remove id =>
    have hw := appRemove_weakens s id
    exact ⟨hw.1.trans hlen, weakens_distinct hw h⟩
  | clean opnow =>
    have hw := appCleanExpired_weakens s opnow
    exact ⟨hw.1.trans hlen, weakens_distinct hw h⟩

/-- C4: for every sequence of add, remove and expiry operations from the
initial table, the number of active entries never exceeds the fixed capacity
of 16 slots and the ids of active entries stay pairwise distinct. -/
theorem C4_table_invariant (ops : List AppOp) :
    activeCount (runAppOps appInitState ops) ≤ 16 ∧
    idsDistinct (runAppOps appInitState ops) := by
  have hrun : ∀ (l : List AppOp) (s : AppState),
      s.apps.length = 16 → idsDistinct s →
      (runAppOps s l).apps.length = 16 ∧ idsDistinct (runAppOps s l) := by
    intro l
    induction l with
    | nil => intro s h1 h2; exact ⟨h1, h2⟩
    | cons op rest ih =>
      intro s h1 h2
      have hstep := applyAppOp_invariant s op h1 h2
      exact ih (applyAppOp s op) hstep.1 hstep.2
  have hinit : appInitState.apps.length = 16 ∧ idsDistinct appInitState := by
    refine ⟨by simp [appInitState], ?_⟩
    intro i j hij hj hi' _
    exfalso
    simp only [appInitState, appSlot, getD_replicate] at hi'
    split at hi' <;> simp [emptyApp] at hi'
  have hfin := hrun ops appInitState hinit.1 hinit.2
  refine ⟨?_, hfin.2⟩
  calc activeCount (runAppOps appInitState ops)
      ≤ (List.range 16).length := List.length_filter_le _ _
  _ = 16 := List.length_range 16

/-- The round-robin scan finds the slot at offset `j` from the start when all
earlier offsets are inactive. -/
theorem scanIter_finds (active : Nat → Bool) (start : Nat) :
    ∀ (fuel i j : Nat), i ≤ j → j < i + fuel →
      active ((start + j) % 16) = true →
      (∀ k, i ≤ k → k < j → active ((start + k) % 16) = false) →
      scanIter active start i fuel = some ((start + j) % 16)
  | 0, i, j, hij, hlt, _, _ => by omega
  | fuel + 1, i, j, hij, hlt, hact, hmin => by
    simp only [scanIter]
    by_cases hji : j = i
    · subst hji
      rw [if_pos hact]
    · have hfi : active ((start + i) % 16) = false :=
        hmin i (Nat.le_refl i) (by omega)
      rw [if_neg (by simp [hfi])]
      exact scanIter_finds active start fuel (i + 1) j (by omega) (by omega)
        hact (fun k hk1 hk2 => hmin k (by omega) hk2)

/-- Conversely, a successful scan returns the first active slot in scan
order. -/
theorem scanIter_some (active : Nat → Bool) (start : Nat) :
    ∀ (fuel i t : Nat), scanIter active start i fuel = some t →
      ∃ j, i ≤ j ∧ j < i + fuel ∧ t = (start + j) % 16 ∧ active t = true ∧
        ∀ k, i ≤ k → k < j → active ((start + k) % 16) = false
  | 0, i, t, h => by simp [scanIter] at h
  | fuel + 1, i, t, h => by
    simp only [scanIter] at h
    by_cases hai : active ((start + i) % 16) = true
    · rw [if_pos hai] at h
      have ht : t = (start + i) % 16 := by simpa using h.symm
      exact ⟨i, Nat.le_refl i, by omega, ht, ht ▸ hai,
        fun k hk1 hk2 => by omega⟩
    · rw [if_neg hai] at h
      obtain ⟨j, h1, h2, h3, h4, h5⟩ := scanIter_some active start fuel (i + 1) t h
      refine ⟨j, by omega, by omega, h3, h4, ?_⟩
      intro k hk1 hk2
      by_cases hki : k = i
      · subst hki
        simpa using hai
      · exact h5 k (by omega) hk2

/-- When no active item can expire at `now`, the expiry sweep is the
identity. -/
theorem cleanExpired_id (s : AppState) (now : Nat)
    (hlen : s.apps.length = 16)
    (hnoexp : ∀ a ∈ s.apps, a.active = true →
      a.lifetime = 0 ∨ now - a.createdAt ≤ a.lifetime) :
    appCleanExpired s now = s := by
  have hstep : ∀ i, i < 16 → cleanStep now s i = s := by
    intro i hi
    simp only [cleanStep]
    rw [if_neg ?_]
    rintro ⟨hact, hlife, hexp⟩
    have := hnoexp (s.apps.getD i emptyApp) (getD_mem (by omega) _) hact
    omega
  have hfold : ∀ (l : List Nat), (∀ i ∈ l, i < 16) →
      l.foldl (cleanStep now) s = s := by
    intro l
    induction l with
    | nil => intro _; rfl
    | cons i rest ih =>
      intro hmem
      simp only [List.foldl_cons]
      rw [hstep i (hmem i (by simp))]
      exact ih (fun k hk => hmem k (by simp [hk]))
  exact hfold (List.range 16) (fun i hi => List.mem_range.mp hi)

/-- Controlled unfolding of `appGetNext` when the expiry sweep is the
identity and the table is nonempty. -/
theorem appGetNext_eq_of_clean (apps : List AppItem) (count : Nat) (cur : Int)
    (now : Nat) (hcnt : ¬count = 0)
    (hclean : appCleanExpired ⟨apps, count, cur⟩ now = ⟨apps, count, cur⟩) :
    appGetNext ⟨apps, count, cur⟩ now =
      match scanIter (fun idx => (apps.getD idx emptyApp).active)
          (((cur + 1) % 16).toNat) 0 16 with
      | some idx => (some idx, ⟨apps, count, Int.ofNat idx⟩)
      | none => (none, ⟨apps, count, cur⟩) := by
  unfold appGetNext
  dsimp only
  rw [if_neg hcnt, hclean, if_neg hcnt]

/-- Rotation orbit, stated in offset space: if `l` lists (in increasing order)
exactly the offsets `k ≥ a` whose slot `(s0 + k) % 16` is active, then
`l.length` successive `appGetNext` calls starting with scan position `s0 + a`
visit precisely the slots `(s0 + k) % 16` for `k ∈ l`, in order. -/
theorem visits_spec (apps : List AppItem) (count : Nat) (now : Nat) (s0 : Nat)
    (hlen : apps.length = 16) (hs0 : s0 < 16) (hcnt : ¬count = 0)
    (hnoexp : ∀ a ∈ apps, a.active = true →
      a.lifetime = 0 ∨ now - a.createdAt ≤ a.lifetime) :
    ∀ (l : List Nat) (a : Nat) (cur : Int),
      l.Pairwise (· < ·) →
      (∀ k, k ∈ l ↔ (a ≤ k ∧ k < 16 ∧
        (apps.getD ((s0 + k) % 16) emptyApp).active = true)) →
      ((cur + 1) % 16).toNat = (s0 + a) % 16 →
      appVisits ⟨apps, count, cur⟩ now l.length =
        l.map (fun k => (s0 + k) % 16) := by
  intro l
  induction l with
  | nil => intro a cur _ _ _; rfl
  | cons b l' ih =>
    intro a cur hpair hmem hstart
    obtain ⟨hab, hb16, hbact⟩ := (hmem b).mp (by simp)
    obtain ⟨hb_lt, hl'⟩ := List.pairwise_cons.mp hpair
    have hclean : appCleanExpired ⟨apps, count, cur⟩ now =
        ⟨apps, count, cur⟩ :=
      cleanExpired_id _ now hlen hnoexp
    have hscan : scanIter (fun idx => (apps.getD idx emptyApp).active)
        ((s0 + a) % 16) 0 16 = some ((s0 + b) % 16) := by
      have h1 : ((s0 + a) % 16 + (b - a)) % 16 = (s0 + b) % 16 := by omega
      have h2 := scanIter_finds
        (fun idx => (apps.getD idx emptyApp).active) ((s0 + a) % 16)
        16 0 (b - a) (by omega) (by omega) (by rw [h1]; exact hbact) ?_
      · rw [h1] at h2
        exact h2
      · intro k _ hk
        have hk16 : ((s0 + a) % 16 + k) % 16 = (s0 + (a + k)) % 16 := by omega
        rw [hk16]
        by_contra hac
        have hactk : (apps.getD ((s0 + (a + k)) % 16) emptyApp).active =
            true := by
          cases hv : (apps.getD ((s0 + (a + k)) % 16) emptyApp).active
          · exact absurd hv hac
          · rfl
        have hmemk : a + k ∈ b :: l' :=
          (hmem (a + k)).mpr ⟨by omega, by omega, hactk⟩
        rcases List.mem_cons.mp hmemk with heq | hmem'
        · omega
        · have := hb_lt (a + k) hmem'
          omega
    have hget : appGetNext ⟨apps, count, cur⟩ now =
        (some ((s0 + b) % 16),
         ⟨apps, count, Int.ofNat ((s0 + b) % 16)⟩) := by
      have h0 := appGetNext_eq_of_clean apps count cur now hcnt hclean
      rw [hstart, hscan] at h0
      exact h0
    have hnext : appVisits ⟨apps, count, cur⟩ now (b :: l').length =
        ((s0 + b) % 16) ::
          appVisits ⟨apps, count, Int.ofNat ((s0 + b) % 16)⟩ now l'.length := by
      simp only [List.length_cons, appVisits, hget]
    rw [hnext]
    have hihgoal := ih (b + 1) (Int.ofNat ((s0 + b) % 16)) hl' ?_ ?_
    · rw [hihgoal]
      simp
    · intro k
      constructor
      · intro hk
        obtain ⟨h1, h2, h3⟩ := (hmem k).mp (List.mem_cons_of_mem b hk)
        have := hb_lt k hk
        exact ⟨by omega, h2, h3⟩
      · rintro ⟨h1, h2, h3⟩
        have hk : k ∈ b :: l' := (hmem k).mpr ⟨by omega, h2, h3⟩
        rcases List.mem_cons.mp hk with heq | hmem'
        · omega
        · exact hmem'
    · rw [Int.ofNat_eq_natCast]
      omega

/-- Distinct offsets below 16 map to distinct slots under rotation. -/
theorem pairwise_ne_map : ∀ (l : List Nat) (f : Nat → Nat),
    l.Pairwise (· < ·) → (∀ x ∈ l, x < 16) →
    (∀ u v, u < 16 → v < 16 → u < v → f u ≠ f v) →
    (l.map f).Pairwise (fun u v => u ≠ v)
  | [], _, _, _, _ => by simp
  | x :: rest, f, hp, hb, hinj => by
    simp only [List.map_cons, List.pairwise_cons]
    obtain ⟨h1, h2⟩ := List.pairwise_cons.mp hp
    refine ⟨?_, pairwise_ne_map rest f h2
      (fun z hz => hb z (by simp [hz])) hinj⟩
    intro u hu
    obtain ⟨z, hz, rfl⟩ := List.mem_map.mp hu
    exact hinj x z (hb x (by simp)) (hb z (by simp [hz])) (h1 z hz)

/-- C2: `appGetNext` scans from `(current+1) mod 16`, wrapping once, and makes
the first active slot current; iterating it for `activeCount` steps visits
every active slot exactly once — no repeats, nothing missed — independently of
which slots the items occupy. -/
theorem C2_round_robin (s : AppState) (now : Nat)
    (hlen : s.apps.length = 16)
    (hcount : s.appCount = activeCount s)
    (hpos : 0 < activeCount s)
    (hnoexp : ∀ a ∈ s.apps, a.active = true →
      a.lifetime = 0 ∨ now - a.createdAt ≤ a.lifetime) :
    (∀ t s', appGetNext s now = (some t, s') →
      t < 16 ∧ (appSlot s t).active = true ∧
      s'.currentAppIndex = Int.ofNat t ∧ s'.apps = s.apps ∧
      ∃ d, d < 16 ∧
        t = (((s.currentAppIndex + 1) % 16).toNat + d) % 16 ∧
        ∀ k, k < d →
          (appSlot s
            ((((s.currentAppIndex + 1) % 16).toNat + k) % 16)).active =
            false) ∧
    (appVisits s now (activeCount s)).length = activeCount s ∧
    (appVisits s now (activeCount s)).Nodup ∧
    (∀ k, k ∈ appVisits s now (activeCount s) ↔
      (k < 16 ∧ (appSlot s k).active = true)) := by
  have hcnt : ¬s.appCount = 0 := by omega
  have hclean : appCleanExpired s now = s := cleanExpired_id s now hlen hnoexp
  have hs0 : ((s.currentAppIndex + 1) % 16).toNat < 16 := by omega
  refine ⟨?_, ?_⟩
  · intro t s' h
    have h0 : appGetNext s now =
        match scanIter (fun idx => (s.apps.getD idx emptyApp).active)
            (((s.currentAppIndex + 1) % 16).toNat) 0 16 with
        | some idx =>
          (some idx, ⟨s.apps, s.appCount, Int.ofNat idx⟩)
        | none => (none, ⟨s.apps, s.appCount, s.currentAppIndex⟩) :=
      appGetNext_eq_of_clean s.apps s.appCount s.currentAppIndex now hcnt
        (by exact hclean)
    rw [h0] at h
    cases hscan : scanIter (fun idx => (s.apps.getD idx emptyApp).active)
        (((s.currentAppIndex + 1) % 16).toNat) 0 16 with
    | none => rw [hscan] at h; exact absurd h (by simp)
    | some idx =>
      rw [hscan] at h
      have h2 : (some idx,
          (⟨s.apps, s.appCount, Int.ofNat idx⟩ : AppState)) =
          (some t, s') := h
      injection h2 with ht hs'
      injection ht with ht'
      subst ht'
      obtain ⟨j, hj0, hj16, hjt, hjact, hjmin⟩ :=
        scanIter_some _ _ 16 0 idx hscan
      refine ⟨by omega, hjact, by rw [← hs'], by rw [← hs'], j, by omega,
        hjt, ?_⟩
      intro k hk
      exact hjmin k (by omega) hk
  · -- full-cycle statement via the offset-space orbit
    set s0 := ((s.currentAppIndex + 1) % 16).toNat with hs0def
    set l := (List.range 16).filter
      (fun k => (s.apps.getD ((s0 + k) % 16) emptyApp).active) with hldef
    have hpair : l.Pairwise (· < ·) :=
      List.Pairwise.filter _ (List.pairwise_lt_range 16)
    have hmem : ∀ k, k ∈ l ↔ (0 ≤ k ∧ k < 16 ∧
        (s.apps.getD ((s0 + k) % 16) emptyApp).active = true) := by
      intro k
      rw [hldef, List.mem_filter, List.mem_range]
      constructor
      · rintro ⟨h1, h2⟩
        exact ⟨by omega, h1, h2⟩
      · rintro ⟨_, h1, h2⟩
        exact ⟨h1, h2⟩
    have hbound : ∀ x ∈ l, x < 16 := fun x hx => ((hmem x).mp hx).2.1
    have hv : appVisits s now l.length =
        l.map (fun k => (s0 + k) % 16) := by
      have := visits_spec s.apps s.appCount now s0 hlen hs0 hcnt hnoexp
        l 0 s.currentAppIndex hpair hmem (by omega)
      simpa using this
    have hmemmap : ∀ k, k ∈ l.map (fun k => (s0 + k) % 16) ↔
        (k < 16 ∧ (appSlot s k).active = true) := by
      intro k
      constructor
      · intro hk
        obtain ⟨z, hz, rfl⟩ := List.mem_map.mp hk
        have := ((hmem z).mp hz).2.2
        exact ⟨by omega, this⟩
      · rintro ⟨hk16, hkact⟩
        have hz16 : ((s0 + (k + 16 - s0) % 16) % 16) = k := by omega
        have hzmem : (k + 16 - s0) % 16 ∈ l := by
          refine (hmem _).mpr ⟨by omega, by omega, ?_⟩
          rw [hz16]
          exact hkact
        refine List.mem_map.mpr ⟨(k + 16 - s0) % 16, hzmem, ?_⟩
        rw [hz16]
    have hnodupmap : (l.map (fun k => (s0 + k) % 16)).Nodup := by
      have := pairwise_ne_map l (fun k => (s0 + k) % 16) hpair hbound
        (fun u v hu hv huv heq => by
          have heq2 : (s0 + u) % 16 = (s0 + v) % 16 := heq
          omega)
      exact this
    have hL : ((List.range 16).filter
        (fun k => (s.apps.getD k emptyApp).active)).Nodup :=
      (List.Pairwise.filter _ (List.pairwise_lt_range 16)).imp ne_of_lt
    have hmemL : ∀ k, k ∈ (List.range 16).filter
        (fun k => (s.apps.getD k emptyApp).active) ↔
        (k < 16 ∧ (appSlot s k).active = true) := by
      intro k
      rw [List.mem_filter, List.mem_range]
      exact Iff.rfl
    have hperm : (l.map (fun k => (s0 + k) % 16)).Perm
        ((List.range 16).filter (fun k => (s.apps.getD k emptyApp).active)) :=
      (List.perm_ext_iff_of_nodup hnodupmap hL).mpr
        (fun k => (hmemmap k).trans (hmemL k).symm)
    have hlcount : l.length = activeCount s := by
      have h1 : (l.map (fun k => (s0 + k) % 16)).length = l.length :=
        List.length_map _ _
      have h2 := hperm.length_eq
      simp only [activeCount]
      omega
    rw [← hlcount, hv]
    refine ⟨by simp [hlcount], hnodupmap, hmemmap⟩

/-- C2 witness: on the concrete table a full cycle of three advances visits
each of the active slots exactly once. -/
theorem C2_round_robin_witness :
    (appVisits c2State 0 (activeCount c2State)).Nodup ∧
    (∀ k, k ∈ appVisits c2State 0 (activeCount c2State) ↔
      (k < 16 ∧ (appSlot c2State k).active = true)) :=
  ⟨(C2_round_robin c2State 0 (by decide) (by decide) (by decide)
      (by decide)).2.2.1,
   (C2_round_robin c2State 0 (by decide) (by decide) (by decide)
      (by decide)).2.2.2⟩

end PixelCast
